import Mathlib

/-!
# Discord webhook notifier

A shallow embedding of `internal/integration/discord/discord.go` and a proof development
about it.

* Go strings are byte sequences (`Bytes`); string literals are their UTF-8 bytes.
* The parts of the Go standard library that the source calls are modelled as far as the
  source uses them: `unicode/utf8` (`decodeRune`, `encodeRune`), the string escaping of
  `encoding/json` as of Go 1.22 (`appendString`), `strconv` (`formatInt`), `net/http`
  (`NewRequest`, `Header.Set`).
* `json.Marshal` on the three payload structs is the composition of `toJSON` (field
  selection, `omitempty`) and `render` (compact serialisation).
* `jsonDecode` is a reference decoder for JSON texts (RFC 8259, integer numbers only). It
  is not part of the source; it says what a reader of a request body gets.
* `SendDiscordMsg` is a loop over the entries that passes an explicit state: the trace of
  observable events (requests issued, response bodies opened and closed) and the stack
  of deferred `Body.Close` calls, which run when the function returns.
* The build-time constant `version.Version`, the verdict of `url.Parse` inside
  `http.NewRequest` and the answers of `httpClient.Do` are parameters (`Env`).
-/

namespace Discord


/-! ## Go strings -/

/-- A Go `string`: an arbitrary sequence of bytes, each a natural number below 256.
Nothing forces a Go string to be valid UTF-8. -/
abbrev Bytes := List Nat

/-- UTF-8 bytes of one character of a source literal. -/
def utf8Bytes (c : Char) : Bytes := (String.utf8EncodeChar c).map UInt8.toNat

/-- The bytes of a Go string literal (Go source text is UTF-8). -/
def goString (s : String) : Bytes := s.data.flatMap utf8Bytes

/-! ## `unicode/utf8` -/

/-- The constant `utf8.RuneError` (U+FFFD). -/
def RuneError : Nat := 0xFFFD

/-- The function `utf8.DecodeRuneInString`: the first rune of `s` and its width in bytes.
An empty input gives `(RuneError, 0)`, an invalid encoding gives `(RuneError, 1)`.
The lookup tables `first` and `acceptRanges` of the library are written out as the
ranges they encode: lead bytes `C2..DF` start a 2-byte form, `E0..EF` a 3-byte form,
`F0..F4` a 4-byte form; the second byte must lie in `lo..hi`, where `lo..hi` is
`80..BF` except after `E0` (`A0..BF`), `ED` (`80..9F`), `F0` (`90..BF`), `F4` (`80..8F`). -/
def decodeRune : Bytes → Nat × Nat
  | [] => (RuneError, 0)
  | s0 :: rest =>
    if s0 < 0x80 then (s0, 1)
    else if s0 < 0xC2 ∨ 0xF4 < s0 then (RuneError, 1)
    else
      let sz := if s0 < 0xE0 then 2 else if s0 < 0xF0 then 3 else 4
      let lo := if s0 = 0xE0 then 0xA0 else if s0 = 0xF0 then 0x90 else 0x80
      let hi := if s0 = 0xED then 0x9F else if s0 = 0xF4 then 0x8F else 0xBF
      if rest.length + 1 < sz then (RuneError, 1)
      else
        match rest with
        | [] => (RuneError, 1)
        | s1 :: rest1 =>
          if s1 < lo ∨ hi < s1 then (RuneError, 1)
          else if sz ≤ 2 then ((s0 &&& 0x1F) <<< 6 ||| (s1 &&& 0x3F), 2)
          else
            match rest1 with
            | [] => (RuneError, 1)
            | s2 :: rest2 =>
              if s2 < 0x80 ∨ 0xBF < s2 then (RuneError, 1)
              else if sz ≤ 3 then
                ((s0 &&& 0x0F) <<< 12 ||| (s1 &&& 0x3F) <<< 6 ||| (s2 &&& 0x3F), 3)
              else
                match rest2 with
                | [] => (RuneError, 1)
                | s3 :: _ =>
                  if s3 < 0x80 ∨ 0xBF < s3 then (RuneError, 1)
                  else
                    ((s0 &&& 0x07) <<< 18 ||| (s1 &&& 0x3F) <<< 12 ||| (s2 &&& 0x3F) <<< 6
                      ||| (s3 &&& 0x3F), 4)

/-- The function `utf8.AppendRune`: the UTF-8 encoding of a code point; surrogates and
values above U+10FFFF are encoded as U+FFFD. -/
def encodeRune (r : Nat) : Bytes :=
  if r < 0x80 then [r]
  else if r < 0x800 then [0xC0 ||| r >>> 6, 0x80 ||| r &&& 0x3F]
  else if (0xD800 ≤ r ∧ r < 0xE000) ∨ 0x10FFFF < r then [0xEF, 0xBF, 0xBD]
  else if r < 0x10000 then [0xE0 ||| r >>> 12, 0x80 ||| (r >>> 6) &&& 0x3F, 0x80 ||| r &&& 0x3F]
  else [0xF0 ||| r >>> 18, 0x80 ||| (r >>> 12) &&& 0x3F, 0x80 ||| (r >>> 6) &&& 0x3F,
        0x80 ||| r &&& 0x3F]

/-- Sequential decoding never meets an invalid byte; `fuel` bounds the number of runes. -/
def validFrom : Nat → Bytes → Bool
  | _, [] => true
  | 0, _ :: _ => false
  | f + 1, b :: rest =>
    let d := decodeRune (b :: rest)
    if d.1 = RuneError ∧ d.2 = 1 then false else validFrom f ((b :: rest).drop d.2)

/-- The function `utf8.ValidString`. -/
def validUTF8 (s : Bytes) : Bool := validFrom s.length s

/-! ## `encoding/json`: string escaping -/

/-- The table `hex` of `encoding/json`: `"0123456789abcdef"`. -/
def hex : Bytes :=
  [0x30, 0x31, 0x32, 0x33, 0x34, 0x35, 0x36, 0x37, 0x38, 0x39, 0x61, 0x62, 0x63, 0x64, 0x65, 0x66]

/-- The table `htmlSafeSet`: the ASCII bytes that `json.Marshal` copies unescaped, that is
`0x20..0x7F` without the double quote, `&`, `<`, `>` and the backslash. -/
def htmlSafe (b : Nat) : Bool :=
  decide (0x20 ≤ b) && decide (b < 0x80) && b != 0x22 && b != 0x26 && b != 0x3C && b != 0x3E
    && b != 0x5C

/-- What `appendString` emits for one byte below `utf8.RuneSelf` (with HTML escaping on,
as `json.Marshal` has it). -/
def escapeASCII (b : Nat) : Bytes :=
  if htmlSafe b then [b]
  else if b = 0x5C ∨ b = 0x22 then [0x5C, b]
  else if b = 0x08 then [0x5C, 0x62]
  else if b = 0x0C then [0x5C, 0x66]
  else if b = 0x0A then [0x5C, 0x6E]
  else if b = 0x0D then [0x5C, 0x72]
  else if b = 0x09 then [0x5C, 0x74]
  else [0x5C, 0x75, 0x30, 0x30, hex.getD (b >>> 4) 0, hex.getD (b &&& 0xF) 0]

/-- The loop of `appendString` between the two quotes. `fuel` bounds the number of
iterations; each iteration consumes at least one byte of `src`. A byte that does not
start a valid UTF-8 sequence is replaced by the six bytes of the escape for U+FFFD;
U+2028 and U+2029 are escaped; every other rune is copied as it is. -/
def appendStringBody : Nat → Bytes → Bytes
  | _, [] => []
  | 0, _ :: _ => []
  | f + 1, b :: rest =>
    if b < 0x80 then escapeASCII b ++ appendStringBody f rest
    else
      let d := decodeRune ((b :: rest).take 4)
      if d.1 = RuneError ∧ d.2 = 1 then
        [0x5C, 0x75, 0x66, 0x66, 0x66, 0x64] ++ appendStringBody f rest
      else if d.1 = 0x2028 ∨ d.1 = 0x2029 then
        [0x5C, 0x75, 0x32, 0x30, 0x32, hex.getD (d.1 &&& 0xF) 0]
          ++ appendStringBody f ((b :: rest).drop d.2)
      else (b :: rest).take d.2 ++ appendStringBody f ((b :: rest).drop d.2)

/-- The function `appendString` of `encoding/json`: a Go string as a JSON string literal. -/
def appendString (src : Bytes) : Bytes :=
  0x22 :: appendStringBody src.length src ++ [0x22]

/-! ## `strconv`: decimal integers -/

/-- Decimal digits of `n`, most significant first, in front of `acc`. -/
def formatNatAux : Nat → Nat → Bytes → Bytes
  | 0, _, acc => acc
  | f + 1, n, acc =>
    if n < 10 then (0x30 + n) :: acc else formatNatAux f (n / 10) ((0x30 + n % 10) :: acc)

/-- Decimal representation of a natural number. -/
def formatNat (n : Nat) : Bytes := formatNatAux (n + 1) n []

/-- The function `strconv.AppendInt` in base 10, which is also the verb `%d` on an `int`. -/
def formatInt (i : Int) : Bytes :=
  if i < 0 then 0x2D :: formatNat i.natAbs else formatNat i.toNat

/-! ## JSON values and their compact serialisation -/

/-- A JSON value. Object members keep their order. -/
inductive JSON where
  | null : JSON
  | bool (b : Bool) : JSON
  | num (n : Int) : JSON
  | str (s : Bytes) : JSON
  | arr (xs : List JSON) : JSON
  | obj (ms : List (Bytes × JSON)) : JSON

mutual
/-- Compact serialisation, as `json.Marshal` writes it: no white space, members and
elements separated by single commas, strings escaped by `appendString`. -/
def render : JSON → Bytes
  | .null => [0x6E, 0x75, 0x6C, 0x6C]
  | .bool true => [0x74, 0x72, 0x75, 0x65]
  | .bool false => [0x66, 0x61, 0x6C, 0x73, 0x65]
  | .num n => formatInt n
  | .str s => appendString s
  | .arr xs => 0x5B :: renderElems xs ++ [0x5D]
  | .obj ms => 0x7B :: renderMembers ms ++ [0x7D]
/-- The elements of an array, comma separated. -/
def renderElems : List JSON → Bytes
  | [] => []
  | [v] => render v
  | v :: w :: vs => render v ++ 0x2C :: renderElems (w :: vs)
/-- The members of an object, comma separated. -/
def renderMembers : List (Bytes × JSON) → Bytes
  | [] => []
  | [(k, v)] => appendString k ++ 0x3A :: render v
  | (k, v) :: m :: ms => appendString k ++ 0x3A :: render v ++ 0x2C :: renderMembers (m :: ms)
end

/-! ## The payload structs and `json.Marshal` -/

/-- The struct `discordFooter`. -/
structure discordFooter where
  Text : Bytes
  IconUrl : Bytes

/-- The struct `discordEmbed`; `Footer` is a pointer, `none` is `nil`. -/
structure discordEmbed where
  Title : Bytes
  Url : Bytes
  Description : Bytes
  Color : Int
  Footer : Option discordFooter

/-- The struct `discordMessage`. -/
structure discordMessage where
  Username : Bytes
  AvatarUrl : Bytes
  Content : Bytes
  Embeds : List discordEmbed

/-- One struct field with the tag `json:"name,omitempty"`: no member when the value is
the empty value of its type (empty string, zero, nil pointer, empty slice). -/
def omitempty (name : Bytes) (isEmpty : Bool) (v : JSON) : List (Bytes × JSON) :=
  if isEmpty then [] else [(name, v)]

/-- The JSON object of a `discordFooter`, fields in declaration order. -/
def discordFooter.toJSON (f : discordFooter) : JSON :=
  .obj (omitempty (goString "text") f.Text.isEmpty (.str f.Text)
    ++ omitempty (goString "icon_url") f.IconUrl.isEmpty (.str f.IconUrl))

/-- The member for the pointer field `Footer` of `discordEmbed`. -/
def footerMember : Option discordFooter → List (Bytes × JSON)
  | none => []
  | some f => [(goString "footer", f.toJSON)]

/-- The JSON object of a `discordEmbed`, fields in declaration order. -/
def discordEmbed.toJSON (e : discordEmbed) : JSON :=
  .obj (omitempty (goString "title") e.Title.isEmpty (.str e.Title)
    ++ omitempty (goString "url") e.Url.isEmpty (.str e.Url)
    ++ omitempty (goString "description") e.Description.isEmpty (.str e.Description)
    ++ omitempty (goString "color") (e.Color == 0) (.num e.Color)
    ++ footerMember e.Footer)

/-- The JSON object of a `discordMessage`, fields in declaration order. -/
def discordMessage.toJSON (m : discordMessage) : JSON :=
  .obj (omitempty (goString "username") m.Username.isEmpty (.str m.Username)
    ++ omitempty (goString "avatar_url") m.AvatarUrl.isEmpty (.str m.AvatarUrl)
    ++ omitempty (goString "content") m.Content.isEmpty (.str m.Content)
    ++ omitempty (goString "embeds") m.Embeds.isEmpty (.arr (m.Embeds.map discordEmbed.toJSON)))

/-- The call `json.Marshal(&discordMessage{...})`. The error result of `json.Marshal`
arises only from unsupported types, cyclic values, non-finite floats or failing custom
marshalers; a struct of strings, an `int`, a slice and a pointer to a struct of strings
has none of these, so the call always succeeds. -/
def jsonMarshal (m : discordMessage) : Except Bytes Bytes :=
  .ok (render m.toJSON)

/-! ## A reference decoder for JSON text (RFC 8259) -/

/-- Value of one hexadecimal digit. -/
def hexVal (b : Nat) : Option Nat :=
  if 0x30 ≤ b ∧ b ≤ 0x39 then some (b - 0x30)
  else if 0x61 ≤ b ∧ b ≤ 0x66 then some (b - 0x61 + 10)
  else if 0x41 ≤ b ∧ b ≤ 0x46 then some (b - 0x41 + 10)
  else none

/-- Value of four hexadecimal digits. -/
def hex4 (a b c d : Nat) : Option Nat :=
  match hexVal a, hexVal b, hexVal c, hexVal d with
  | some a, some b, some c, some d => some (((a * 16 + b) * 16 + c) * 16 + d)
  | _, _, _, _ => none

/-- The byte denoted by a two-character escape. -/
def simpleEscape (e : Nat) : Option Nat :=
  if e = 0x22 then some 0x22
  else if e = 0x5C then some 0x5C
  else if e = 0x2F then some 0x2F
  else if e = 0x62 then some 0x08
  else if e = 0x66 then some 0x0C
  else if e = 0x6E then some 0x0A
  else if e = 0x72 then some 0x0D
  else if e = 0x74 then some 0x09
  else none

/-- Put `pre` in front of a decoded string. -/
def prepend (pre : Bytes) (r : Option (Bytes × Bytes)) : Option (Bytes × Bytes) :=
  r.map fun p => (pre ++ p.1, p.2)

/-- The low half of a surrogate pair at the head of `bs`, with what follows it. -/
def lowSurrogate : Bytes → Option (Nat × Bytes)
  | b :: u :: l1 :: l2 :: l3 :: l4 :: rest =>
    if b = 0x5C ∧ u = 0x75 then
      match hex4 l1 l2 l3 l4 with
      | some lo => if 0xDC00 ≤ lo ∧ lo < 0xE000 then some (lo, rest) else none
      | none => none
    else none
  | _ => none

/-- Decode a JSON string from just after its opening quote: the decoded bytes and the
input that follows the closing quote. Escapes are resolved, `\uXXXX` to the UTF-8
encoding of the code point (a surrogate pair to one code point, a lone surrogate to
U+FFFD); an unescaped control character is an error; every other byte is copied. -/
def unquoteBody : Nat → Bytes → Option (Bytes × Bytes)
  | 0, _ => none
  | _ + 1, [] => none
  | f + 1, b :: rest =>
    if b = 0x22 then some ([], rest)
    else if b = 0x5C then
      match rest with
      | [] => none
      | e :: rest1 =>
        if e = 0x75 then
          match rest1 with
          | h1 :: h2 :: h3 :: h4 :: rest2 =>
            match hex4 h1 h2 h3 h4 with
            | none => none
            | some cp =>
              if 0xD800 ≤ cp ∧ cp < 0xDC00 then
                match lowSurrogate rest2 with
                | some (lo, rest3) =>
                  prepend (encodeRune (0x10000 + (cp - 0xD800) * 0x400 + (lo - 0xDC00)))
                    (unquoteBody f rest3)
                | none => prepend (encodeRune cp) (unquoteBody f rest2)
              else prepend (encodeRune cp) (unquoteBody f rest2)
          | _ => none
        else
          match simpleEscape e with
          | some x => prepend [x] (unquoteBody f rest1)
          | none => none
    else if b < 0x20 then none
    else prepend [b] (unquoteBody f rest)

/-- Drop leading JSON white space. -/
def skipWS : Bytes → Bytes
  | [] => []
  | b :: rest => if b = 0x20 ∨ b = 0x09 ∨ b = 0x0A ∨ b = 0x0D then skipWS rest else b :: rest

/-- Read decimal digits into the accumulator. -/
def parseDigits : Bytes → Nat → Nat × Bytes
  | [], acc => (acc, [])
  | b :: rest, acc =>
    if 0x30 ≤ b ∧ b ≤ 0x39 then parseDigits rest (acc * 10 + (b - 0x30)) else (acc, b :: rest)

/-- A natural number without superfluous leading zero. -/
def parseNat : Bytes → Option (Nat × Bytes)
  | [] => none
  | b :: rest =>
    if b = 0x30 then some (0, rest)
    else if 0x31 ≤ b ∧ b ≤ 0x39 then some (parseDigits rest (b - 0x30))
    else none

/-- Does a fraction or an exponent follow? The decoder reads integers only. -/
def fractionFollows : Bytes → Bool
  | [] => false
  | b :: _ => b == 0x2E || b == 0x65 || b == 0x45

/-- An integer number. -/
def parseInt : Bytes → Option (Int × Bytes)
  | [] => none
  | b :: rest =>
    if b = 0x2D then
      match parseNat rest with
      | some (n, r) => if fractionFollows r then none else some (-(n : Int), r)
      | none => none
    else
      match parseNat (b :: rest) with
      | some (n, r) => if fractionFollows r then none else some ((n : Int), r)
      | none => none

/-- Strip the literal `lit` from the head of `bs`. -/
def stripLiteral (lit : Bytes) (bs : Bytes) : Option Bytes :=
  if lit.isPrefixOf bs then some (bs.drop lit.length) else none

mutual
/-- Parse one JSON value at the head of the input; the value and the rest of the input.
`fuel` bounds the nesting depth plus the number of elements read. -/
def parseValue : Nat → Bytes → Option (JSON × Bytes)
  | 0, _ => none
  | f + 1, bs =>
    match skipWS bs with
    | [] => none
    | b :: rest =>
      if b = 0x22 then
        match unquoteBody (rest.length + 1) rest with
        | some (s, r) => some (.str s, r)
        | none => none
      else if b = 0x5B then
        match skipWS rest with
        | [] => none
        | c :: r =>
          if c = 0x5D then some (.arr [], r)
          else
            match parseElems f (c :: r) with
            | some (xs, r1) => some (.arr xs, r1)
            | none => none
      else if b = 0x7B then
        match skipWS rest with
        | [] => none
        | c :: r =>
          if c = 0x7D then some (.obj [], r)
          else
            match parseMembers f (c :: r) with
            | some (ms, r1) => some (.obj ms, r1)
            | none => none
      else if b = 0x6E then
        match stripLiteral [0x75, 0x6C, 0x6C] rest with
        | some r => some (.null, r)
        | none => none
      else if b = 0x74 then
        match stripLiteral [0x72, 0x75, 0x65] rest with
        | some r => some (.bool true, r)
        | none => none
      else if b = 0x66 then
        match stripLiteral [0x61, 0x6C, 0x73, 0x65] rest with
        | some r => some (.bool false, r)
        | none => none
      else
        match parseInt (b :: rest) with
        | some (n, r) => some (.num n, r)
        | none => none
/-- Parse the elements of a non-empty array up to and including the closing bracket. -/
def parseElems : Nat → Bytes → Option (List JSON × Bytes)
  | 0, _ => none
  | f + 1, bs =>
    match parseValue f bs with
    | none => none
    | some (v, r) =>
      match skipWS r with
      | [] => none
      | c :: r1 =>
        if c = 0x2C then
          match parseElems f r1 with
          | some (vs, r2) => some (v :: vs, r2)
          | none => none
        else if c = 0x5D then some ([v], r1)
        else none
/-- Parse the members of a non-empty object up to and including the closing brace. -/
def parseMembers : Nat → Bytes → Option (List (Bytes × JSON) × Bytes)
  | 0, _ => none
  | f + 1, bs =>
    match skipWS bs with
    | [] => none
    | q :: r0 =>
      if q = 0x22 then
        match unquoteBody (r0.length + 1) r0 with
        | none => none
        | some (k, r1) =>
          match skipWS r1 with
          | [] => none
          | c :: r2 =>
            if c = 0x3A then
              match parseValue f r2 with
              | none => none
              | some (v, r3) =>
                match skipWS r3 with
                | [] => none
                | d :: r4 =>
                  if d = 0x2C then
                    match parseMembers f r4 with
                    | some (ms, r5) => some ((k, v) :: ms, r5)
                    | none => none
                  else if d = 0x7D then some ([(k, v)], r4)
                  else none
            else none
      else none
end

/-- Decode a complete JSON text: one value, then nothing but white space. -/
def jsonDecode (bs : Bytes) : Option JSON :=
  match parseValue (bs.length + 1) bs with
  | some (v, r) => if (skipWS r).isEmpty then some v else none
  | none => none

/-- The string that `appendStringBody` denotes: every byte that does not start a valid
UTF-8 sequence replaced by the encoding of U+FFFD, all else unchanged. -/
def toValidUTF8From : Nat → Bytes → Bytes
  | _, [] => []
  | 0, _ :: _ => []
  | f + 1, b :: rest =>
    let d := decodeRune (b :: rest)
    if d.1 = RuneError ∧ d.2 = 1 then [0xEF, 0xBF, 0xBD] ++ toValidUTF8From f rest
    else (b :: rest).take d.2 ++ toValidUTF8From f ((b :: rest).drop d.2)

/-- A Go string coerced to valid UTF-8, the way `json.Marshal` documents it. -/
def toValidUTF8 (s : Bytes) : Bytes := toValidUTF8From s.length s

/-- The input after a value is at its end or continues with `,`, `]` or the closing brace. -/
def delimited : Bytes → Bool
  | [] => true
  | b :: _ => b == 0x2C || b == 0x5D || b == 0x7D

mutual
/-- Number of nodes of a JSON value, which bounds the fuel that parsing it needs. -/
def JSON.size : JSON → Nat
  | .null => 1
  | .bool _ => 1
  | .num _ => 1
  | .str _ => 1
  | .arr xs => 1 + sizeElems xs
  | .obj ms => 1 + sizeMembers ms
/-- Size of a list of elements. -/
def sizeElems : List JSON → Nat
  | [] => 0
  | v :: vs => 1 + v.size + sizeElems vs
/-- Size of a list of members. -/
def sizeMembers : List (Bytes × JSON) → Nat
  | [] => 0
  | (_, v) :: ms => 1 + v.size + sizeMembers ms
end

mutual
/-- The value that the serialisation of `v` denotes: `v` with every string and every
member name coerced to valid UTF-8. -/
def JSON.sanitize : JSON → JSON
  | .null => .null
  | .bool b => .bool b
  | .num n => .num n
  | .str s => .str (toValidUTF8 s)
  | .arr xs => .arr (sanitizeElems xs)
  | .obj ms => .obj (sanitizeMembers ms)
/-- Elementwise `sanitize`. -/
def sanitizeElems : List JSON → List JSON
  | [] => []
  | v :: vs => v.sanitize :: sanitizeElems vs
/-- Memberwise `sanitize`. -/
def sanitizeMembers : List (Bytes × JSON) → List (Bytes × JSON)
  | [] => []
  | (k, v) :: ms => (toValidUTF8 k, v.sanitize) :: sanitizeMembers ms
end

/-! ## Collaborators: feed, entry, HTTP -/

/-- Modelled from the spec: the type `model.Feed` is declared outside the source at hand.
The data model of the spec gives a feed a `Title` and an optional `IconURL`, both strings;
these are the two fields that `SendDiscordMsg` reads. -/
structure Feed where
  Title : Bytes
  IconURL : Bytes
deriving DecidableEq

/-- Modelled from the spec: the type `model.Entry` is declared outside the source at hand.
The data model of the spec gives an entry a `Title`, a `URL` and an `Author`, all strings;
these are the three fields that `SendDiscordMsg` reads. -/
structure Entry where
  Title : Bytes
  URL : Bytes
  Author : Bytes
deriving DecidableEq

/-- The type `http.Header`, with canonical keys. -/
abbrev Header := List (Bytes × Bytes)

/-- The method `Header.Set`: replace whatever is stored under `key`. Both keys that this
package sets are in canonical form already. -/
def Header.Set (h : Header) (key value : Bytes) : Header :=
  h.filter (fun kv => kv.1 != key) ++ [(key, value)]

/-- The method `Header.Get`, with `none` for a key that is absent. -/
def Header.Get (h : Header) (key : Bytes) : Option Bytes :=
  List.lookup key h

/-- An `*http.Request` as far as this package determines it. -/
structure Request where
  Method : Bytes
  URL : Bytes
  Header : Header
  Body : Bytes
deriving DecidableEq

/-- What `httpClient.Do` returns: an error and no response, or a response with a status
code and an open body. -/
inductive DoResult where
  | transportError (err : Bytes) : DoResult
  | response (StatusCode : Int) : DoResult
deriving DecidableEq

/-- The function `stringContainsCTLByte` of `net/url`. -/
def stringContainsCTLByte (s : Bytes) : Bool :=
  s.any fun b => decide (b < 0x20) || b == 0x7F

/-- The part of a raw URL in front of its fragment, which is what `url.Parse` hands to
its inner `parse`. -/
def beforeFragment (rawURL : Bytes) : Bytes :=
  rawURL.takeWhile fun b => b != 0x23

/-- What the code takes from outside the package.
* `version` is the constant `version.Version`.
* `urlParseError u` is the text of the error of `url.Parse(u)`, if it fails; this is the
  only way in which `http.NewRequest` with a valid method can fail. The library rejects
  at least every URL with an ASCII control byte in front of the fragment.
* `httpDo pos req` is the result of `httpClient.Do(req)` when it is the call number `pos`
  (from zero) of the running `SendDiscordMsg`. -/
structure Env where
  version : Bytes
  urlParseError : Bytes → Option Bytes
  httpDo : Nat → Request → DoResult
  rejectsCTL : ∀ u, stringContainsCTLByte (beforeFragment u) = true →
    (urlParseError u).isSome = true

/-- The constant `http.MethodPost`. -/
def MethodPost : Bytes := goString "POST"

/-- The call `http.NewRequest(method, url, bytes.NewReader(body))` with a valid method:
it fails exactly when the URL does not parse. -/
def NewRequest (env : Env) (method url body : Bytes) : Except Bytes Request :=
  match env.urlParseError url with
  | some err => .error err
  | none => .ok { Method := method, URL := url, Header := [], Body := body }

/-! ## The client -/

/-- The struct `Client`. -/
structure Client where
  webhookURL : Bytes
deriving DecidableEq

/-- The constructor `NewClient`. -/
def NewClient (webhookURL : Bytes) : Client :=
  { webhookURL := webhookURL }

/-- What a run of `SendDiscordMsg` does to the world, in order. The position is that of
the entry in the sequence, from zero. -/
inductive Event where
  | request (pos : Nat) (req : Request) : Event
  | bodyOpened (pos : Nat) : Event
  | bodyClosed (pos : Nat) : Event
deriving DecidableEq

/-- The result of a call: the returned error (`none` is `nil`), the events in
chronological order, and the client as the call leaves it. -/
structure Outcome where
  err : Option Bytes
  trace : List Event
  client : Client

/-- The value `footerText` of one iteration. -/
def footerText (version : Bytes) (entry : Entry) : Bytes :=
  entry.Author ++ goString " " ++ goString "•" ++ goString " " ++ goString "Miniflux/" ++ version

/-- The `discordMessage` literal of one iteration. -/
def messageFor (version : Bytes) (feed : Feed) (entry : Entry) : discordMessage :=
  { Username := [], AvatarUrl := [], Content := [],
    Embeds := [
      { Title := entry.Title,
        Url := entry.URL,
        Description := feed.Title,
        Color := 5793266,
        Footer := some { Text := footerText version entry, IconUrl := feed.IconURL } }] }

/-- The request of one iteration after the two `Header.Set` calls. -/
def withHeaders (version : Bytes) (request : Request) : Request :=
  let request := { request with
    Header := request.Header.Set (goString "Content-Type") (goString "application/json") }
  { request with
    Header := request.Header.Set (goString "User-Agent") (goString "Miniflux/" ++ version) }

/-- A `return`: the deferred `response.Body.Close()` calls run, last in first out. -/
def finish (c : Client) (err : Option Bytes) (trace : List Event) (deferred : List Nat) :
    Outcome :=
  { err := err, trace := trace ++ deferred.map Event.bodyClosed, client := c }

/-- The `for` loop of `SendDiscordMsg` from the entry at position `pos` on; `trace` holds
the events so far and `deferred` the stack of pending `defer response.Body.Close()`. The
call to `slog.Debug` has no effect on the control flow nor on the exchange and is left
out; the timeout of the HTTP client is a matter of real time, and an exchange that times
out is one that `httpDo` answers with a transport error. -/
def sendLoop (env : Env) (c : Client) (feed : Feed) :
    List Entry → Nat → List Event → List Nat → Outcome
  | [], _, trace, deferred => finish c none trace deferred
  | entry :: entries, pos, trace, deferred =>
    match jsonMarshal (messageFor env.version feed entry) with
    | .error err =>
      finish c (some (goString "discord: unable to encode request body: " ++ err)) trace deferred
    | .ok requestBody =>
      match NewRequest env MethodPost c.webhookURL requestBody with
      | .error err =>
        finish c (some (goString "discord: unable to create request: " ++ err)) trace deferred
      | .ok request =>
        let request := withHeaders env.version request
        match env.httpDo pos request with
        | .transportError err =>
          finish c (some (goString "discord: unable to send request: " ++ err))
            (trace ++ [.request pos request]) deferred
        | .response StatusCode =>
          let trace := trace ++ [.request pos request, .bodyOpened pos]
          let deferred := pos :: deferred
          if StatusCode ≥ 400 then
            finish c (some (goString "discord: unable to send a notification: url="
              ++ c.webhookURL ++ goString " status=" ++ formatInt StatusCode)) trace deferred
          else sendLoop env c feed entries (pos + 1) trace deferred

/-- The method `(*Client).SendDiscordMsg`. -/
def SendDiscordMsg (env : Env) (c : Client) (feed : Feed) (entries : List Entry) : Outcome :=
  sendLoop env c feed entries 0 [] []

/-! ## Reading a trace -/

/-- The requests issued, in order, each with the position of its entry. -/
def requests : List Event → List (Nat × Request)
  | [] => []
  | .request pos req :: t => (pos, req) :: requests t
  | _ :: t => requests t

/-- Replay a trace from the set `open_` of open response bodies. The result is the set of
bodies open at the end; `none` if a body is opened while open or closed while not open. -/
def replay : List Event → List Nat → Option (List Nat)
  | [], open_ => some open_
  | .request _ _ :: t, open_ => replay t open_
  | .bodyOpened pos :: t, open_ => if pos ∈ open_ then none else replay t (pos :: open_)
  | .bodyClosed pos :: t, open_ => if pos ∈ open_ then replay t (open_.erase pos) else none

/-- For every request of a trace, the position of its entry and the response bodies that
are open at the moment it is issued. -/
def openAtRequests : List Event → List Nat → List (Nat × List Nat)
  | [], _ => []
  | .request pos _ :: t, open_ => (pos, open_) :: openAtRequests t open_
  | .bodyOpened pos :: t, open_ => openAtRequests t (pos :: open_)
  | .bodyClosed pos :: t, open_ => openAtRequests t (open_.erase pos)

/-- The request that `SendDiscordMsg` builds for one entry. -/
def requestFor (version : Bytes) (c : Client) (feed : Feed) (entry : Entry) : Request :=
  withHeaders version
    { Method := MethodPost, URL := c.webhookURL, Header := [],
      Body := render (messageFor version feed entry).toJSON }

/-- The exchange for `entry` at position `pos` is answered with a status below 400. -/
def exchangeOK (env : Env) (c : Client) (feed : Feed) (pos : Nat) (entry : Entry) : Bool :=
  match env.httpDo pos (requestFor env.version c feed entry) with
  | .transportError _ => false
  | .response StatusCode => decide (StatusCode < 400)

/-- Member `key` of a JSON object. -/
def JSON.get (key : Bytes) : JSON → Option JSON
  | .obj ms => List.lookup key ms
  | _ => none

/-- The member names of a JSON object, in order. -/
def JSON.keys : JSON → List Bytes
  | .obj ms => ms.map Prod.fst
  | _ => []

/-- Element `i` of a JSON array. -/
def JSON.elem (i : Nat) : JSON → Option JSON
  | .arr xs => xs[i]?
  | _ => none

/-- The string under `key` of a JSON object, and the empty string when there is no such
member: what `json.Unmarshal` leaves in a string field of a struct. -/
def JSON.stringField (key : Bytes) (v : JSON) : Bytes :=
  match v.get key with
  | some (.str s) => s
  | _ => []

/-- The first embed of a serialised message. -/
def firstEmbed (body : Bytes) : Option JSON :=
  ((jsonDecode body).bind (JSON.get (goString "embeds"))).bind (JSON.elem 0)

/-- An environment in which every URL without a control byte parses and every exchange
is answered with `answer`. -/
def constEnv (version : Bytes) (answer : DoResult) : Env :=
  { version := version
    urlParseError := fun u =>
      if stringContainsCTLByte (beforeFragment u) then
        some (goString "net/url: invalid control character in URL")
      else none
    httpDo := fun _ _ => answer
    rejectsCTL := by
      intro u h
      simp [h] }

/-! ## Lemmas: bit operations and `decodeRune` -/

theorem shl_or (a b k : Nat) (h : b < 2 ^ k) : a <<< k ||| b = a * 2 ^ k + b := by
  rw [Nat.shiftLeft_eq, Nat.mul_comm a, ← Nat.mul_add_lt_is_or h]

theorem mask5 (a : Nat) : a &&& 0x1F = a % 32 := Nat.and_pow_two_sub_one_eq_mod a 5
theorem mask4 (a : Nat) : a &&& 0x0F = a % 16 := Nat.and_pow_two_sub_one_eq_mod a 4
theorem mask3 (a : Nat) : a &&& 0x07 = a % 8 := Nat.and_pow_two_sub_one_eq_mod a 3
theorem mask6 (a : Nat) : a &&& 0x3F = a % 64 := Nat.and_pow_two_sub_one_eq_mod a 6

theorem rune2 (a b : Nat) : (a &&& 0x1F) <<< 6 ||| (b &&& 0x3F) = (a % 32) * 64 + b % 64 := by
  rw [mask5, mask6, shl_or _ _ 6 (by have := Nat.mod_lt b (show 64 > 0 by norm_num); omega)]
  norm_num

theorem rune3 (a b c : Nat) :
    (a &&& 0x0F) <<< 12 ||| (b &&& 0x3F) <<< 6 ||| (c &&& 0x3F)
      = (a % 16) * 4096 + (b % 64) * 64 + c % 64 := by
  rw [mask4, mask6, mask6, Nat.shiftLeft_eq (b % 64) 6,
    shl_or _ _ 12 (by have := Nat.mod_lt b (show 64 > 0 by norm_num); omega)]
  have h : a % 16 * 2 ^ 12 + b % 64 * 2 ^ 6 = (a % 16 * 64 + b % 64) <<< 6 := by
    rw [Nat.shiftLeft_eq]; ring
  rw [h, shl_or _ _ 6 (by have := Nat.mod_lt c (show 64 > 0 by norm_num); omega)]
  ring

theorem rune4 (a b c d : Nat) :
    (a &&& 0x07) <<< 18 ||| (b &&& 0x3F) <<< 12 ||| (c &&& 0x3F) <<< 6 ||| (d &&& 0x3F)
      = (a % 8) * 262144 + (b % 64) * 4096 + (c % 64) * 64 + d % 64 := by
  rw [mask3, mask6, mask6, mask6, Nat.shiftLeft_eq (b % 64) 12, Nat.shiftLeft_eq (c % 64) 6,
    shl_or _ _ 18 (by have := Nat.mod_lt b (show 64 > 0 by norm_num); omega)]
  have h : a % 8 * 2 ^ 18 + b % 64 * 2 ^ 12 = (a % 8 * 64 + b % 64) <<< 12 := by
    rw [Nat.shiftLeft_eq]; ring
  rw [h, shl_or _ _ 12 (by have := Nat.mod_lt c (show 64 > 0 by norm_num); omega)]
  have h2 : (a % 8 * 64 + b % 64) * 2 ^ 12 + c % 64 * 2 ^ 6
      = ((a % 8 * 64 + b % 64) * 64 + c % 64) <<< 6 := by
    rw [Nat.shiftLeft_eq]; ring
  rw [h2, shl_or _ _ 6 (by have := Nat.mod_lt d (show 64 > 0 by norm_num); omega)]
  ring

/-- The shape of every result of `decodeRune` on a non-empty input. -/
theorem decodeRune_cases (b : Nat) (rest : Bytes) :
    (b < 0x80 ∧ decodeRune (b :: rest) = (b, 1))
    ∨ (0x80 ≤ b ∧ decodeRune (b :: rest) = (RuneError, 1))
    ∨ (∃ s1 r, rest = s1 :: r ∧ 0xC2 ≤ b ∧ b < 0xE0 ∧ 0x80 ≤ s1 ∧ s1 ≤ 0xBF
        ∧ decodeRune (b :: rest) = (b % 32 * 64 + s1 % 64, 2))
    ∨ (∃ s1 s2 r, rest = s1 :: s2 :: r ∧ 0xE0 ≤ b ∧ b < 0xF0 ∧ 0x80 ≤ s1 ∧ s1 ≤ 0xBF
        ∧ (b = 0xE0 → 0xA0 ≤ s1) ∧ (b = 0xED → s1 ≤ 0x9F) ∧ 0x80 ≤ s2 ∧ s2 ≤ 0xBF
        ∧ decodeRune (b :: rest) = (b % 16 * 4096 + s1 % 64 * 64 + s2 % 64, 3))
    ∨ (∃ s1 s2 s3 r, rest = s1 :: s2 :: s3 :: r ∧ 0xF0 ≤ b ∧ b ≤ 0xF4 ∧ 0x80 ≤ s1 ∧ s1 ≤ 0xBF
        ∧ (b = 0xF0 → 0x90 ≤ s1) ∧ (b = 0xF4 → s1 ≤ 0x8F) ∧ 0x80 ≤ s2 ∧ s2 ≤ 0xBF
        ∧ 0x80 ≤ s3 ∧ s3 ≤ 0xBF
        ∧ decodeRune (b :: rest)
            = (b % 8 * 262144 + s1 % 64 * 4096 + s2 % 64 * 64 + s3 % 64, 4)) := by
  by_cases h0 : b < 0x80
  · left; exact ⟨h0, by simp [decodeRune, h0]⟩
  right
  by_cases h1 : b < 0xC2 ∨ 0xF4 < b
  · left; exact ⟨by omega, by simp [decodeRune, h0, h1]⟩
  have hb : 0xC2 ≤ b ∧ b ≤ 0xF4 := by omega
  rcases rest with _ | ⟨s1, r⟩
  · left; refine ⟨by omega, ?_⟩
    simp only [decodeRune, h0, h1, if_false, List.length_nil]
    split_ifs <;> rfl
  by_cases h2 : b < 0xE0
  · by_cases hs1 : s1 < 0x80 ∨ 0xBF < s1
    · left; refine ⟨by omega, ?_⟩
      have e1 : ¬ b = 0xE0 := by omega
      have e2 : ¬ b = 0xF0 := by omega
      have e3 : ¬ b = 0xED := by omega
      have e4 : ¬ b = 0xF4 := by omega
      simp [decodeRune, h0, h1, h2, e1, e2, e3, e4, hs1]
    · right; left
      have e1 : ¬ b = 0xE0 := by omega
      have e2 : ¬ b = 0xF0 := by omega
      have e3 : ¬ b = 0xED := by omega
      have e4 : ¬ b = 0xF4 := by omega
      refine ⟨s1, r, rfl, by omega, h2, by omega, by omega, ?_⟩
      simp [decodeRune, h0, h1, h2, e1, e2, e3, e4, hs1, rune2]
  by_cases h3 : b < 0xF0
  · have e2 : ¬ b = 0xF0 := by omega
    have e4 : ¬ b = 0xF4 := by omega
    by_cases hs1 : s1 < (if b = 0xE0 then 0xA0 else 0x80) ∨ (if b = 0xED then 0x9F else 0xBF) < s1
    · left; refine ⟨by omega, ?_⟩
      simp only [decodeRune, h0, h1, h2, h3, e2, e4, hs1, if_false, if_true]
      split_ifs <;> rfl
    rcases r with _ | ⟨s2, r⟩
    · left; refine ⟨by omega, ?_⟩
      simp [decodeRune, h0, h1, h2, h3, e2, e4, hs1]
    by_cases hs2 : s2 < 0x80 ∨ 0xBF < s2
    · left; refine ⟨by omega, ?_⟩
      simp only [decodeRune, h0, h1, h2, h3, e2, e4, hs1, hs2, if_false, if_true]
      split_ifs <;> first | rfl | omega
    · right; right; left
      refine ⟨s1, s2, r, rfl, by omega, h3, ?_, ?_, ?_, ?_, by omega, by omega, ?_⟩
      · split_ifs at hs1 <;> omega
      · split_ifs at hs1 <;> omega
      · intro e; simp [e] at hs1; omega
      · intro e; simp [e] at hs1; omega
      · simp [decodeRune, h0, h1, h2, h3, e2, e4, hs1, hs2, rune3]
  have e1 : ¬ b = 0xE0 := by omega
  have e3 : ¬ b = 0xED := by omega
  by_cases hs1 : s1 < (if b = 0xF0 then 0x90 else 0x80) ∨ (if b = 0xF4 then 0x8F else 0xBF) < s1
  · left; refine ⟨by omega, ?_⟩
    simp only [decodeRune, h0, h1, h2, h3, e1, e3, hs1, if_false, if_true]
    split_ifs <;> rfl
  rcases r with _ | ⟨s2, r⟩
  · left; refine ⟨by omega, ?_⟩
    simp [decodeRune, h0, h1, h2, h3, e1, e3, hs1]
  by_cases hs2 : s2 < 0x80 ∨ 0xBF < s2
  · left; refine ⟨by omega, ?_⟩
    simp only [decodeRune, h0, h1, h2, h3, e1, e3, hs1, hs2, if_false, if_true]
    split_ifs <;> first | rfl | omega
  rcases r with _ | ⟨s3, r⟩
  · left; refine ⟨by omega, ?_⟩
    simp [decodeRune, h0, h1, h2, h3, e1, e3, hs1, hs2]
  by_cases hs3 : s3 < 0x80 ∨ 0xBF < s3
  · left; refine ⟨by omega, ?_⟩
    simp only [decodeRune, h0, h1, h2, h3, e1, e3, hs1, hs2, hs3, if_false, if_true]
    split_ifs <;> first | rfl | omega
  · right; right; right
    refine ⟨s1, s2, s3, r, rfl, by omega, by omega, ?_, ?_, ?_, ?_, by omega, by omega,
      by omega, by omega, ?_⟩
    · split_ifs at hs1 <;> omega
    · split_ifs at hs1 <;> omega
    · intro e; simp [e] at hs1; omega
    · intro e; simp [e] at hs1; omega
    · simp [decodeRune, h0, h1, h2, h3, e1, e3, hs1, hs2, hs3, rune4]

theorem decodeRune_take4 (s : Bytes) : decodeRune (s.take 4) = decodeRune s := by
  rcases s with _ | ⟨a, _ | ⟨b, _ | ⟨c, _ | ⟨d, r⟩⟩⟩⟩ <;> try rfl
  simp only [List.take, decodeRune, List.length_cons, List.length_nil]
  have h1 : ¬ (0 + 1 + 1 + 1 + 1 < (if a < 224 then 2 else if a < 240 then 3 else 4)) := by
    split_ifs <;> omega
  have h2 : ¬ (r.length + 1 + 1 + 1 + 1 < (if a < 224 then 2 else if a < 240 then 3 else 4)) := by
    split_ifs <;> omega
  simp only [h1, h2, if_false]

theorem decodeRune_width_pos (b : Nat) (rest : Bytes) : 1 ≤ (decodeRune (b :: rest)).2 := by
  rcases decodeRune_cases b rest with h | h | ⟨_, _, _, _, _, _, _, h⟩
    | ⟨_, _, _, _, _, _, _, _, _, _, _, _, h⟩ | ⟨_, _, _, _, _, _, _, _, _, _, _, _, _, _, _, h⟩
  · rw [h.2]
  · rw [h.2]
  all_goals rw [h]; simp

/-- A multi-byte rune that decodes without error consists of bytes from `0x80` up. -/
theorem decodeRune_high (b : Nat) (rest : Bytes) (hb : 0x80 ≤ b)
    (hd : ¬ ((decodeRune (b :: rest)).1 = RuneError ∧ (decodeRune (b :: rest)).2 = 1)) :
    ∀ x ∈ (b :: rest).take (decodeRune (b :: rest)).2, 0x80 ≤ x := by
  rcases decodeRune_cases b rest with h | h | ⟨s1, r, hr, _, _, _, _, h⟩
    | ⟨s1, s2, r, hr, _, _, _, _, _, _, _, _, h⟩
    | ⟨s1, s2, s3, r, hr, _, _, _, _, _, _, _, _, _, _, h⟩
  · omega
  · rw [h.2] at hd; simp at hd
  all_goals
    subst hr
    rw [h]
    intro x hx
    simp at hx
    omega

/-- The only byte sequence that decodes to U+2028 or U+2029 is its UTF-8 encoding. -/
theorem decodeRune_linesep (b : Nat) (rest : Bytes) (c : Nat) (hc : c = 0x2028 ∨ c = 0x2029)
    (hd : (decodeRune (b :: rest)).1 = c) :
    (b :: rest).take (decodeRune (b :: rest)).2 = [0xE2, 0x80, c - 0x2000 + 0x80] := by
  rcases decodeRune_cases b rest with h | h | ⟨s1, r, hr, _, _, _, _, h⟩
    | ⟨s1, s2, r, hr, _, _, _, _, _, _, _, _, h⟩
    | ⟨s1, s2, s3, r, hr, _, _, _, _, _, _, _, _, _, _, h⟩
  · rw [h.2] at hd; simp at hd; omega
  · rw [h.2] at hd; simp [RuneError] at hd; omega
  · rw [h] at hd; simp at hd; omega
  · subst hr; rw [h] at hd ⊢; simp at hd ⊢; omega
  · rw [h] at hd; simp at hd; omega

/-! ## Lemmas: decoding what `appendString` wrote -/

@[simp] theorem prepend_some (pre x rest : Bytes) :
    prepend pre (some (x, rest)) = some (pre ++ x, rest) := rfl

theorem prepend_prepend (a b : Bytes) (r : Option (Bytes × Bytes)) :
    prepend a (prepend b r) = prepend (a ++ b) r := by
  cases r <;> simp [prepend]

theorem unquote_safe (b : Nat) (h1 : 0x20 ≤ b) (h2 : b ≠ 0x22) (h3 : b ≠ 0x5C) (g : Nat)
    (tail : Bytes) : unquoteBody (g + 1) (b :: tail) = prepend [b] (unquoteBody g tail) := by
  have h4 : ¬ b < 0x20 := by omega
  simp [unquoteBody, h2, h3, h4]

theorem unquote_escapeASCII (b : Nat) (hb : b < 0x80) (g : Nat) (tail : Bytes) :
    unquoteBody (g + 1) (escapeASCII b ++ tail) = prepend [b] (unquoteBody g tail) := by
  by_cases hs : htmlSafe b = true
  · have hs2 := hs
    simp only [htmlSafe, Bool.and_eq_true, decide_eq_true_eq, bne_iff_ne, ne_eq] at hs2
    simp only [escapeASCII, hs, if_true, List.singleton_append]
    exact unquote_safe b (by omega) (by omega) (by omega) g tail
  · have hcases : b < 0x20 ∨ b = 0x22 ∨ b = 0x26 ∨ b = 0x3C ∨ b = 0x3E ∨ b = 0x5C := by
      by_contra hcon
      apply hs
      simp only [htmlSafe, Bool.and_eq_true, decide_eq_true_eq, bne_iff_ne, ne_eq]
      omega
    rcases hcases with h | h | h | h | h | h
    · interval_cases b <;> rfl
    all_goals subst h; rfl

theorem unquote_raw (raw : Bytes) (hraw : ∀ x ∈ raw, 0x80 ≤ x) (g : Nat) (tail : Bytes) :
    unquoteBody (g + raw.length) (raw ++ tail) = prepend raw (unquoteBody g tail) := by
  induction raw with
  | nil => cases h : unquoteBody g tail <;> simp [prepend, h]
  | cons x xs ih =>
    have hx : 0x80 ≤ x := hraw x (List.mem_cons_self _ _)
    have hxs : ∀ y ∈ xs, 0x80 ≤ y := fun y hy => hraw y (List.mem_cons_of_mem _ hy)
    have e : g + (x :: xs).length = (g + xs.length) + 1 := by simp; omega
    rw [e, List.cons_append, unquote_safe x (by omega) (by omega) (by omega), ih hxs,
      prepend_prepend]
    rfl

theorem unquote_ufffd (g : Nat) (tail : Bytes) :
    unquoteBody (g + 1) ([0x5C, 0x75, 0x66, 0x66, 0x66, 0x64] ++ tail)
      = prepend [0xEF, 0xBF, 0xBD] (unquoteBody g tail) := rfl

theorem unquote_u2028 (g : Nat) (tail : Bytes) :
    unquoteBody (g + 1) ([0x5C, 0x75, 0x32, 0x30, 0x32, 0x38] ++ tail)
      = prepend [0xE2, 0x80, 0xA8] (unquoteBody g tail) := rfl

theorem unquote_u2029 (g : Nat) (tail : Bytes) :
    unquoteBody (g + 1) ([0x5C, 0x75, 0x32, 0x30, 0x32, 0x39] ++ tail)
      = prepend [0xE2, 0x80, 0xA9] (unquoteBody g tail) := rfl

/-- Decoding what `appendStringBody` wrote, up to the closing quote, gives the source
string coerced to valid UTF-8. -/
theorem unquote_appendStringBody (f : Nat) : ∀ (src rest : Bytes) (g : Nat),
    (appendStringBody f src).length < g →
    unquoteBody g (appendStringBody f src ++ 0x22 :: rest) = some (toValidUTF8From f src, rest) := by
  induction f with
  | zero =>
    intro src rest g hg
    obtain ⟨g, rfl⟩ : ∃ g', g = g' + 1 := ⟨g - 1, by omega⟩
    cases src <;> simp [appendStringBody, toValidUTF8From, unquoteBody]
  | succ f ih =>
    intro src rest g hg
    obtain ⟨g, rfl⟩ : ∃ g', g = g' + 1 := ⟨g - 1, by omega⟩
    rcases src with _ | ⟨b, src⟩
    · simp [appendStringBody, toValidUTF8From, unquoteBody]
    by_cases hb : b < 0x80
    · have hd : decodeRune (b :: src) = (b, 1) := by simp [decodeRune, hb]
      have hne : ¬ (b = RuneError ∧ (1 : Nat) = 1) := by unfold RuneError; omega
      simp only [appendStringBody, hb, if_true] at hg ⊢
      simp only [toValidUTF8From, hd, hne, if_false]
      rw [List.append_assoc, unquote_escapeASCII b hb, ih src rest g]
      · have hne2 : ¬ b = RuneError := by unfold RuneError; omega
        simp [hne2]
      · simp only [List.length_append] at hg
        have : 1 ≤ (escapeASCII b).length := by
          unfold escapeASCII; split_ifs <;> simp
        omega
    · have hb2 : 0x80 ≤ b := by omega
      have ht : decodeRune (List.take 4 (b :: src)) = decodeRune (b :: src) :=
        decodeRune_take4 (b :: src)
      simp only [appendStringBody, hb, if_false, ht] at hg ⊢
      simp only [toValidUTF8From]
      by_cases herr : (decodeRune (b :: src)).1 = RuneError ∧ (decodeRune (b :: src)).2 = 1
      · simp only [herr, and_self, if_true] at hg ⊢
        rw [List.append_assoc, unquote_ufffd, ih src rest g]
        · simp
        · simp only [List.length_append, List.length_cons, List.length_nil] at hg
          omega
      · simp only [herr, if_false] at hg ⊢
        by_cases hls : (decodeRune (b :: src)).1 = 0x2028 ∨ (decodeRune (b :: src)).1 = 0x2029
        · simp only [hls, if_true] at hg ⊢
          have hlen : (appendStringBody f (List.drop (decodeRune (b :: src)).2 (b :: src))).length
              < g := by
            simp only [List.length_append, List.length_cons, List.length_nil] at hg
            omega
          rcases hls with h8 | h9
          · have hk := decodeRune_linesep b src 0x2028 (Or.inl rfl) h8
            rw [hk, h8, List.append_assoc]
            rw [show [92, 117, 50, 48, 50, hex.getD (8232 &&& 15) 0]
                = [0x5C, 0x75, 0x32, 0x30, 0x32, 0x38] from rfl, unquote_u2028, ih _ rest g hlen]
            simp
          · have hk := decodeRune_linesep b src 0x2029 (Or.inr rfl) h9
            rw [hk, h9, List.append_assoc]
            rw [show [92, 117, 50, 48, 50, hex.getD (8233 &&& 15) 0]
                = [0x5C, 0x75, 0x32, 0x30, 0x32, 0x39] from rfl, unquote_u2029, ih _ rest g hlen]
            simp
        · simp only [hls, if_false] at hg ⊢
          have hhigh := decodeRune_high b src hb2 herr
          simp only [List.length_append] at hg
          obtain ⟨g0, hg0⟩ : ∃ g0, g + 1
              = g0 + (List.take (decodeRune (b :: src)).2 (b :: src)).length := ⟨g + 1
              - (List.take (decodeRune (b :: src)).2 (b :: src)).length, by omega⟩
          rw [hg0, List.append_assoc, unquote_raw _ hhigh, ih _ rest g0 (by omega)]
          simp

/-! ## Lemmas: decimal integers -/

theorem formatNatAux_acc (f : Nat) : ∀ (n : Nat) (acc : Bytes),
    formatNatAux f n acc = formatNatAux f n [] ++ acc := by
  induction f with
  | zero => intro n acc; simp [formatNatAux]
  | succ f ih =>
    intro n acc
    simp only [formatNatAux]
    split_ifs
    · simp
    · rw [ih (n / 10) ((48 + n % 10) :: acc), ih (n / 10) [48 + n % 10]]
      simp

/-- The digits written for `n` lead with a digit, which is zero only for `n = 0`. -/
theorem formatNatAux_head (n : Nat) : ∀ f, n < f →
    ∃ d ds, formatNatAux f n [] = d :: ds ∧ 0x30 ≤ d ∧ d ≤ 0x39 ∧ (0 < n → 0x31 ≤ d) := by
  induction n using Nat.strong_induction_on with
  | _ n ih =>
    intro f hf
    obtain ⟨f, rfl⟩ : ∃ f', f = f' + 1 := ⟨f - 1, by omega⟩
    simp only [formatNatAux]
    split_ifs with h
    · exact ⟨48 + n, [], rfl, by omega, by omega, by omega⟩
    · obtain ⟨d, ds, hd, h1, h2, h3⟩ := ih (n / 10) (by omega) f (by omega)
      rw [formatNatAux_acc, hd]
      exact ⟨d, ds ++ [48 + n % 10], by simp, h1, h2, fun _ => h3 (by omega)⟩

/-- Reading back the digits written for `n` adds `n` behind the digits read so far. -/
theorem parseDigits_formatNatAux (n : Nat) : ∀ f, n < f →
    ∃ k, ∀ (acc : Bytes) (a : Nat),
      parseDigits (formatNatAux f n [] ++ acc) a = parseDigits acc (a * 10 ^ k + n) := by
  induction n using Nat.strong_induction_on with
  | _ n ih =>
    intro f hf
    obtain ⟨f, rfl⟩ : ∃ f', f = f' + 1 := ⟨f - 1, by omega⟩
    simp only [formatNatAux]
    split_ifs with h
    · refine ⟨1, fun acc a => ?_⟩
      have h1 : 48 ≤ 48 + n ∧ 48 + n ≤ 57 := by omega
      simp only [List.singleton_append, parseDigits, h1, and_self, if_true]
      congr 1
      omega
    · obtain ⟨k, hk⟩ := ih (n / 10) (by omega) f (by omega)
      refine ⟨k + 1, fun acc a => ?_⟩
      rw [formatNatAux_acc, List.append_assoc, hk]
      have h1 : 48 ≤ 48 + n % 10 ∧ 48 + n % 10 ≤ 57 := by omega
      simp only [List.singleton_append, parseDigits, h1, and_self, if_true]
      congr 1
      rw [pow_succ]
      have := Nat.div_add_mod n 10
      have e : 48 + n % 10 - 48 = n % 10 := by omega
      rw [e]
      nlinarith [Nat.div_add_mod n 10]

theorem parseDigits_stop (tail : Bytes) (a : Nat) (h : delimited tail = true) :
    parseDigits tail a = (a, tail) := by
  rcases tail with _ | ⟨b, r⟩
  · rfl
  · simp only [delimited, Bool.or_eq_true, beq_iff_eq] at h
    have : ¬ (48 ≤ b ∧ b ≤ 57) := by omega
    simp [parseDigits, this]

theorem fractionFollows_delimited (tail : Bytes) (h : delimited tail = true) :
    fractionFollows tail = false := by
  rcases tail with _ | ⟨b, r⟩
  · rfl
  · simp only [delimited, Bool.or_eq_true, beq_iff_eq] at h
    simp only [fractionFollows, Bool.or_eq_false_iff, beq_eq_false_iff_ne, ne_eq]
    omega

theorem parseNat_formatNat (n : Nat) (tail : Bytes) (h : delimited tail = true) :
    parseNat (formatNat n ++ tail) = some (n, tail) := by
  obtain ⟨d, ds, hd, h1, h2, h3⟩ := formatNatAux_head n (n + 1) (by omega)
  obtain ⟨k, hk⟩ := parseDigits_formatNatAux n (n + 1) (by omega)
  have hk0 := hk tail 0
  unfold formatNat
  rw [hd] at hk0 ⊢
  by_cases hn : n = 0
  · subst hn
    have : formatNatAux 1 0 [] = [48] := rfl
    rw [this] at hd
    cases hd
    rfl
  · have hd1 : 0x31 ≤ d := h3 (by omega)
    have e1 : ¬ d = 48 := by omega
    have e2 : 49 ≤ d ∧ d ≤ 57 := by omega
    have e3 : 48 ≤ d ∧ d ≤ 57 := by omega
    simp only [List.cons_append, parseNat, e1, e2, and_self, if_true, if_false]
    simp only [List.cons_append, parseDigits, e3, and_self, if_true, zero_mul, zero_add] at hk0
    have hk1 : parseDigits (ds ++ tail) (d - 48) = parseDigits tail n := hk0
    rw [hk1, parseDigits_stop tail _ h]

theorem formatNat_head (n : Nat) :
    ∃ d ds, formatNat n = d :: ds ∧ 0x30 ≤ d ∧ d ≤ 0x39 := by
  obtain ⟨d, ds, hd, h1, h2, _⟩ := formatNatAux_head n (n + 1) (by omega)
  exact ⟨d, ds, hd, h1, h2⟩

theorem parseInt_formatInt (i : Int) (tail : Bytes) (h : delimited tail = true) :
    parseInt (formatInt i ++ tail) = some (i, tail) := by
  unfold formatInt
  split_ifs with hi
  · simp only [List.cons_append, parseInt, if_true, parseNat_formatNat _ tail h,
      fractionFollows_delimited tail h]
    simp
    rw [abs_of_neg hi]
    omega
  · obtain ⟨d, ds, hd, h1, h2⟩ := formatNat_head i.toNat
    have hp := parseNat_formatNat i.toNat tail h
    rw [hd] at hp ⊢
    have e : ¬ d = 45 := by omega
    simp only [List.cons_append, parseInt, e, if_false] at hp ⊢
    rw [hp]
    simp [fractionFollows_delimited tail h]
    omega

theorem formatInt_head (i : Int) :
    ∃ d ds, formatInt i = d :: ds ∧ (d = 0x2D ∨ (0x30 ≤ d ∧ d ≤ 0x39)) := by
  unfold formatInt
  split_ifs
  · exact ⟨_, _, rfl, Or.inl rfl⟩
  · obtain ⟨d, ds, hd, h1, h2⟩ := formatNat_head i.toNat
    exact ⟨d, ds, hd, Or.inr ⟨h1, h2⟩⟩

/-! ## Lemmas: decoding what `render` wrote -/

theorem skipWS_cons (b : Nat) (r : Bytes) (h : ¬ (b = 0x20 ∨ b = 0x09 ∨ b = 0x0A ∨ b = 0x0D)) :
    skipWS (b :: r) = b :: r := by
  simp only [skipWS, h, if_false]

/-- A string literal written by `appendString` decodes to the coerced source string. -/
theorem unquote_appendString (s tail : Bytes) :
    unquoteBody ((appendStringBody s.length s ++ 0x22 :: tail).length + 1)
      (appendStringBody s.length s ++ 0x22 :: tail) = some (toValidUTF8 s, tail) := by
  apply unquote_appendStringBody
  simp only [List.length_append, List.length_cons]
  omega

theorem appendString_eq (s tail : Bytes) :
    appendString s ++ tail = 0x22 :: (appendStringBody s.length s ++ 0x22 :: tail) := by
  simp [appendString]

/-- Every serialised value starts with a byte that is not white space and that selects
the right branch of the parser. -/
theorem render_head (v : JSON) : ∃ b r, render v = b :: r
    ∧ ¬ (b = 0x20 ∨ b = 0x09 ∨ b = 0x0A ∨ b = 0x0D) ∧ b ≠ 0x5D ∧ b ≠ 0x7D := by
  cases v with
  | null => exact ⟨0x6E, [0x75, 0x6C, 0x6C], by simp only [render], by decide, by decide,
      by decide⟩
  | bool b =>
    cases b
    · exact ⟨0x66, [0x61, 0x6C, 0x73, 0x65], by simp only [render], by decide, by decide,
        by decide⟩
    · exact ⟨0x74, [0x72, 0x75, 0x65], by simp only [render], by decide, by decide, by decide⟩
  | num n =>
    obtain ⟨d, ds, hd, h⟩ := formatInt_head n
    exact ⟨d, ds, by simp only [render, hd], by omega, by omega, by omega⟩
  | str s => exact ⟨0x22, appendStringBody s.length s ++ [0x22],
      by simp [render, appendString], by decide, by decide, by decide⟩
  | arr xs => exact ⟨0x5B, renderElems xs ++ [0x5D], by simp [render], by decide,
      by decide, by decide⟩
  | obj ms => exact ⟨0x7B, renderMembers ms ++ [0x7D], by simp [render], by decide,
      by decide, by decide⟩

theorem renderElems_head (xs : List JSON) (hxs : xs ≠ []) : ∃ b r, renderElems xs = b :: r
    ∧ ¬ (b = 0x20 ∨ b = 0x09 ∨ b = 0x0A ∨ b = 0x0D) ∧ b ≠ 0x5D := by
  rcases xs with _ | ⟨v, _ | ⟨w, ws⟩⟩
  · exact absurd rfl hxs
  · obtain ⟨b, r, h, h1, h2, _⟩ := render_head v
    exact ⟨b, r, by simp only [renderElems, h], h1, h2⟩
  · obtain ⟨b, r, h, h1, h2, _⟩ := render_head v
    exact ⟨b, r ++ 0x2C :: renderElems (w :: ws), by simp [renderElems, h], h1, h2⟩

theorem renderMembers_head (ms : List (Bytes × JSON)) (hms : ms ≠ []) :
    ∃ r, renderMembers ms = 0x22 :: r := by
  rcases ms with _ | ⟨⟨k, v⟩, _ | ⟨m, ms⟩⟩
  · exact absurd rfl hms
  · exact ⟨appendStringBody k.length k ++ 0x22 :: 0x3A :: render v,
      by simp [renderMembers, appendString]⟩
  · exact ⟨appendStringBody k.length k ++ 0x22 :: 0x3A :: (render v
      ++ 0x2C :: renderMembers (m :: ms)), by simp [renderMembers, appendString]⟩

mutual
theorem parseValue_render : ∀ (v : JSON) (f : Nat) (tail : Bytes), v.size ≤ f →
    delimited tail = true → parseValue f (render v ++ tail) = some (v.sanitize, tail)
  | .null, f, tail, hf, _ => by
    obtain ⟨f, rfl⟩ : ∃ f', f = f' + 1 := ⟨f - 1, by simp [JSON.size] at hf; omega⟩
    simp [render, parseValue, skipWS, stripLiteral, JSON.sanitize]
  | .bool true, f, tail, hf, _ => by
    obtain ⟨f, rfl⟩ : ∃ f', f = f' + 1 := ⟨f - 1, by simp [JSON.size] at hf; omega⟩
    simp [render, parseValue, skipWS, stripLiteral, JSON.sanitize]
  | .bool false, f, tail, hf, _ => by
    obtain ⟨f, rfl⟩ : ∃ f', f = f' + 1 := ⟨f - 1, by simp [JSON.size] at hf; omega⟩
    simp [render, parseValue, skipWS, stripLiteral, JSON.sanitize]
  | .num n, f, tail, hf, hd => by
    obtain ⟨f, rfl⟩ : ∃ f', f = f' + 1 := ⟨f - 1, by simp [JSON.size] at hf; omega⟩
    obtain ⟨d, ds, hds, h⟩ := formatInt_head n
    have hp := parseInt_formatInt n tail hd
    simp only [render]
    rw [hds] at hp ⊢
    have hws : ¬ (d = 0x20 ∨ d = 0x09 ∨ d = 0x0A ∨ d = 0x0D) := by omega
    have e1 : ¬ d = 0x22 := by omega
    have e2 : ¬ d = 0x5B := by omega
    have e3 : ¬ d = 0x7B := by omega
    have e4 : ¬ d = 0x6E := by omega
    have e5 : ¬ d = 0x74 := by omega
    have e6 : ¬ d = 0x66 := by omega
    simp only [List.cons_append] at hp ⊢
    simp only [parseValue, skipWS_cons d _ hws, e1, e2, e3, e4, e5, e6, if_false, hp,
      JSON.sanitize]
  | .str s, f, tail, hf, _ => by
    obtain ⟨f, rfl⟩ : ∃ f', f = f' + 1 := ⟨f - 1, by simp [JSON.size] at hf; omega⟩
    simp only [render, appendString_eq, parseValue, skipWS_cons 0x22 _ (by decide), if_true,
      unquote_appendString, JSON.sanitize]
  | .arr [], f, tail, hf, _ => by
    obtain ⟨f, rfl⟩ : ∃ f', f = f' + 1 := ⟨f - 1, by simp [JSON.size] at hf; omega⟩
    simp [render, renderElems, parseValue, skipWS, JSON.sanitize, sanitizeElems]
  | .arr (v :: vs), f, tail, hf, _ => by
    obtain ⟨f, rfl⟩ : ∃ f', f = f' + 1 := ⟨f - 1, by simp [JSON.size] at hf; omega⟩
    have hsz : sizeElems (v :: vs) ≤ f := by simp only [JSON.size] at hf; omega
    have ih := parseElems_render (v :: vs) f tail (by simp) hsz
    obtain ⟨c, R, hR, hws, hne⟩ := renderElems_head (v :: vs) (by simp)
    simp only [render, List.cons_append, List.append_assoc, List.singleton_append]
    rw [hR] at ih ⊢
    simp only [List.cons_append] at ih ⊢
    simp only [parseValue, skipWS_cons 0x5B _ (by decide), skipWS_cons c _ hws, hne,
      if_false, if_true, JSON.sanitize, List.nil_append]
    simp [ih]
  | .obj [], f, tail, hf, _ => by
    obtain ⟨f, rfl⟩ : ∃ f', f = f' + 1 := ⟨f - 1, by simp [JSON.size] at hf; omega⟩
    simp [render, renderMembers, parseValue, skipWS, JSON.sanitize, sanitizeMembers]
  | .obj (m :: ms), f, tail, hf, _ => by
    obtain ⟨f, rfl⟩ : ∃ f', f = f' + 1 := ⟨f - 1, by simp [JSON.size] at hf; omega⟩
    have hsz : sizeMembers (m :: ms) ≤ f := by simp only [JSON.size] at hf; omega
    have ih := parseMembers_render (m :: ms) f tail (by simp) hsz
    obtain ⟨R, hR⟩ := renderMembers_head (m :: ms) (by simp)
    simp only [render, List.cons_append, List.append_assoc, List.singleton_append]
    rw [hR] at ih ⊢
    simp only [List.cons_append] at ih ⊢
    simp only [parseValue, skipWS_cons 0x7B _ (by decide), skipWS_cons 0x22 _ (by decide),
      if_false, if_true, JSON.sanitize]
    simp only [List.nil_append]
    simp [ih]
theorem parseElems_render : ∀ (xs : List JSON) (f : Nat) (tail : Bytes), xs ≠ [] →
    sizeElems xs ≤ f →
    parseElems f (renderElems xs ++ 0x5D :: tail) = some (sanitizeElems xs, tail)
  | [], _, _, h, _ => absurd rfl h
  | [v], f, tail, _, hf => by
    obtain ⟨f, rfl⟩ : ∃ f', f = f' + 1 := ⟨f - 1, by simp [sizeElems] at hf; omega⟩
    have hv : v.size ≤ f := by simp only [sizeElems] at hf; omega
    have ih := parseValue_render v f (0x5D :: tail) hv rfl
    simp only [renderElems, parseElems, ih, skipWS_cons 0x5D _ (by decide), sanitizeElems]
    simp
  | v :: w :: ws, f, tail, _, hf => by
    obtain ⟨f, rfl⟩ : ∃ f', f = f' + 1 := ⟨f - 1, by simp [sizeElems] at hf; omega⟩
    have hv : v.size ≤ f := by simp only [sizeElems] at hf; omega
    have hws : sizeElems (w :: ws) ≤ f := by simp only [sizeElems] at hf ⊢; omega
    have ih := parseValue_render v f
      (0x2C :: (renderElems (w :: ws) ++ 0x5D :: tail)) hv rfl
    have ih2 := parseElems_render (w :: ws) f tail (by simp) hws
    simp only [renderElems, List.append_assoc, List.cons_append, parseElems, ih,
      skipWS_cons 0x2C _ (by decide), ih2, sanitizeElems]
    simp
theorem parseMembers_render : ∀ (ms : List (Bytes × JSON)) (f : Nat) (tail : Bytes), ms ≠ [] →
    sizeMembers ms ≤ f →
    parseMembers f (renderMembers ms ++ 0x7D :: tail) = some (sanitizeMembers ms, tail)
  | [], _, _, h, _ => absurd rfl h
  | [(k, v)], f, tail, _, hf => by
    obtain ⟨f, rfl⟩ : ∃ f', f = f' + 1 := ⟨f - 1, by simp [sizeMembers] at hf; omega⟩
    have hv : v.size ≤ f := by simp only [sizeMembers] at hf; omega
    have ih := parseValue_render v f (0x7D :: tail) hv rfl
    simp only [renderMembers, List.append_assoc, List.cons_append, appendString_eq,
      parseMembers, skipWS_cons 0x22 _ (by decide), if_true, unquote_appendString,
      skipWS_cons 0x3A _ (by decide), ih, skipWS_cons 0x7D _ (by decide), sanitizeMembers]
    simp
  | (k, v) :: m :: ms, f, tail, _, hf => by
    obtain ⟨f, rfl⟩ : ∃ f', f = f' + 1 := ⟨f - 1, by simp [sizeMembers] at hf; omega⟩
    have hv : v.size ≤ f := by simp only [sizeMembers] at hf; omega
    have hms : sizeMembers (m :: ms) ≤ f := by
      rcases m with ⟨k2, v2⟩
      simp only [sizeMembers] at hf ⊢; omega
    have ih := parseValue_render v f
      (0x2C :: (renderMembers (m :: ms) ++ 0x7D :: tail)) hv rfl
    have ih2 := parseMembers_render (m :: ms) f tail (by simp) hms
    simp only [renderMembers, List.append_assoc, List.cons_append, appendString_eq,
      parseMembers, skipWS_cons 0x22 _ (by decide), if_true, unquote_appendString,
      skipWS_cons 0x3A _ (by decide), ih, skipWS_cons 0x2C _ (by decide), ih2,
      sanitizeMembers]
end

mutual
theorem size_le_length : ∀ v : JSON, v.size ≤ (render v).length
  | .null => by simp [JSON.size, render]
  | .bool true => by simp [JSON.size, render]
  | .bool false => by simp [JSON.size, render]
  | .num n => by
    obtain ⟨d, ds, hd, _⟩ := formatInt_head n
    simp [JSON.size, render, hd]
  | .str s => by simp [JSON.size, render, appendString]
  | .arr xs => by
    have := sizeElems_le_length xs
    simp only [JSON.size, render, List.length_cons, List.length_append, List.length_nil]
    omega
  | .obj ms => by
    have := sizeMembers_le_length ms
    simp only [JSON.size, render, List.length_cons, List.length_append, List.length_nil]
    omega
theorem sizeElems_le_length : ∀ xs : List JSON, sizeElems xs ≤ (renderElems xs).length + 1
  | [] => by simp [sizeElems]
  | [v] => by
    have := size_le_length v
    simp only [sizeElems, renderElems]
    omega
  | v :: w :: ws => by
    have := size_le_length v
    have := sizeElems_le_length (w :: ws)
    simp only [sizeElems, renderElems, List.length_cons, List.length_append] at *
    omega
theorem sizeMembers_le_length : ∀ ms : List (Bytes × JSON),
    sizeMembers ms ≤ (renderMembers ms).length + 1
  | [] => by simp [sizeMembers]
  | [(k, v)] => by
    have := size_le_length v
    simp only [sizeMembers, renderMembers, List.length_cons, List.length_append]
    omega
  | (k, v) :: (k2, v2) :: ms => by
    have := size_le_length v
    have := sizeMembers_le_length ((k2, v2) :: ms)
    simp only [sizeMembers, renderMembers, List.length_cons, List.length_append] at *
    omega
end

/-- Decoding the serialisation of a JSON value gives the value back, its strings coerced
to valid UTF-8. -/
theorem jsonDecode_render (v : JSON) : jsonDecode (render v) = some v.sanitize := by
  have h := parseValue_render v ((render v).length + 1) []
    (by have := size_le_length v; omega) rfl
  rw [List.append_nil] at h
  simp [jsonDecode, h, skipWS]

/-- A string without an invalid byte is its own coercion. -/
theorem toValidUTF8From_of_valid (f : Nat) : ∀ s : Bytes, validFrom f s = true →
    toValidUTF8From f s = s := by
  induction f with
  | zero => intro s h; cases s <;> simp_all [validFrom, toValidUTF8From]
  | succ f ih =>
    intro s h
    rcases s with _ | ⟨b, rest⟩
    · simp [toValidUTF8From]
    · simp only [validFrom] at h
      simp only [toValidUTF8From]
      split_ifs at h ⊢ with herr
      rw [ih _ h, List.take_append_drop]

theorem toValidUTF8_of_valid (s : Bytes) (h : validUTF8 s = true) : toValidUTF8 s = s :=
  toValidUTF8From_of_valid s.length s h

/-! ## Lemmas: the loop of `SendDiscordMsg` -/

theorem requests_append (t1 t2 : List Event) : requests (t1 ++ t2) = requests t1 ++ requests t2 := by
  induction t1 with
  | nil => rfl
  | cons ev t ih => cases ev <;> simp [requests, ih]

theorem requests_closed (ds : List Nat) : requests (ds.map Event.bodyClosed) = [] := by
  induction ds with
  | nil => rfl
  | cons d ds ih => simp [requests, ih]

/-- An iteration whose URL does not parse returns before any request is issued. -/
theorem sendLoop_urlError (env : Env) (c : Client) (feed : Feed) (entry : Entry)
    (entries : List Entry) (pos : Nat) (trace : List Event) (deferred : List Nat) (err : Bytes)
    (hurl : env.urlParseError c.webhookURL = some err) :
    sendLoop env c feed (entry :: entries) pos trace deferred
      = finish c (some (goString "discord: unable to create request: " ++ err)) trace deferred := by
  simp [sendLoop, jsonMarshal, NewRequest, hurl]

/-- An iteration whose exchange fails in transport returns right after its request. -/
theorem sendLoop_transportError (env : Env) (c : Client) (feed : Feed) (entry : Entry)
    (entries : List Entry) (pos : Nat) (trace : List Event) (deferred : List Nat) (err : Bytes)
    (hurl : env.urlParseError c.webhookURL = none)
    (hdo : env.httpDo pos (requestFor env.version c feed entry) = .transportError err) :
    sendLoop env c feed (entry :: entries) pos trace deferred
      = finish c (some (goString "discord: unable to send request: " ++ err))
          (trace ++ [.request pos (requestFor env.version c feed entry)]) deferred := by
  simp only [requestFor] at hdo
  simp [sendLoop, jsonMarshal, NewRequest, hurl, hdo, requestFor]

/-- An iteration whose exchange is answered with a status returns if the status is 400
or more and goes on to the next entry otherwise, with the body pushed on the defer stack. -/
theorem sendLoop_status (env : Env) (c : Client) (feed : Feed) (entry : Entry)
    (entries : List Entry) (pos : Nat) (trace : List Event) (deferred : List Nat) (s : Int)
    (hurl : env.urlParseError c.webhookURL = none)
    (hdo : env.httpDo pos (requestFor env.version c feed entry) = .response s) :
    sendLoop env c feed (entry :: entries) pos trace deferred
      = if s ≥ 400 then
          finish c (some (goString "discord: unable to send a notification: url="
              ++ c.webhookURL ++ goString " status=" ++ formatInt s))
            (trace ++ [.request pos (requestFor env.version c feed entry), .bodyOpened pos])
            (pos :: deferred)
        else
          sendLoop env c feed entries (pos + 1)
            (trace ++ [.request pos (requestFor env.version c feed entry), .bodyOpened pos])
            (pos :: deferred) := by
  simp only [requestFor] at hdo
  simp [sendLoop, jsonMarshal, NewRequest, hurl, hdo, requestFor]

/-- A run from any state is the run from the empty state, between the events that came
before and the deferred calls that were pending. -/
theorem sendLoop_frame (env : Env) (c : Client) (feed : Feed) (entries : List Entry) :
    ∀ (pos : Nat) (trace : List Event) (deferred : List Nat),
      sendLoop env c feed entries pos trace deferred
        = { err := (sendLoop env c feed entries pos [] []).err
            trace := trace ++ (sendLoop env c feed entries pos [] []).trace
              ++ deferred.map Event.bodyClosed
            client := c } := by
  induction entries with
  | nil => intro pos trace deferred; simp [sendLoop, finish]
  | cons entry entries ih =>
    intro pos trace deferred
    rcases hurl : env.urlParseError c.webhookURL with _ | err
    · rcases hdo : env.httpDo pos (requestFor env.version c feed entry) with err | s
      · rw [sendLoop_transportError env c feed entry entries pos _ _ err hurl hdo,
          sendLoop_transportError env c feed entry entries pos _ _ err hurl hdo]
        simp [finish]
      · rw [sendLoop_status env c feed entry entries pos _ _ s hurl hdo,
          sendLoop_status env c feed entry entries pos _ _ s hurl hdo]
        split_ifs
        · simp [finish]
        · rw [ih (pos + 1) (trace ++ _) (pos :: deferred), ih (pos + 1) ([] ++ _) [pos]]
          simp
    · rw [sendLoop_urlError env c feed entry entries pos _ _ err hurl,
        sendLoop_urlError env c feed entry entries pos _ _ err hurl]
      simp [finish]

/-- One successful iteration in front of the run for the remaining entries. -/
theorem sendLoop_ok (env : Env) (c : Client) (feed : Feed) (entry : Entry)
    (entries : List Entry) (pos : Nat) (s : Int)
    (hurl : env.urlParseError c.webhookURL = none)
    (hdo : env.httpDo pos (requestFor env.version c feed entry) = .response s) (hs : s < 400) :
    sendLoop env c feed (entry :: entries) pos [] []
      = { err := (sendLoop env c feed entries (pos + 1) [] []).err
          trace := [.request pos (requestFor env.version c feed entry), .bodyOpened pos]
            ++ (sendLoop env c feed entries (pos + 1) [] []).trace ++ [.bodyClosed pos]
          client := c } := by
  rw [sendLoop_status env c feed entry entries pos _ _ s hurl hdo, if_neg (by omega),
    sendLoop_frame]
  simp

/-- A run leaves the client as it is. -/
theorem sendLoop_client (env : Env) (c : Client) (feed : Feed) (entries : List Entry)
    (pos : Nat) (trace : List Event) (deferred : List Nat) :
    (sendLoop env c feed entries pos trace deferred).client = c := by
  rw [sendLoop_frame]

/-- The four ways in which the first iteration of a run can go. -/
theorem sendLoop_cons (env : Env) (c : Client) (feed : Feed) (entry : Entry)
    (entries : List Entry) (pos : Nat) :
    (∃ err, env.urlParseError c.webhookURL = some err
        ∧ (sendLoop env c feed (entry :: entries) pos [] []).trace = []
        ∧ (sendLoop env c feed (entry :: entries) pos [] []).err
            = some (goString "discord: unable to create request: " ++ err))
    ∨ (env.urlParseError c.webhookURL = none
        ∧ ∃ err, env.httpDo pos (requestFor env.version c feed entry) = .transportError err
        ∧ (sendLoop env c feed (entry :: entries) pos [] []).trace
            = [.request pos (requestFor env.version c feed entry)]
        ∧ (sendLoop env c feed (entry :: entries) pos [] []).err
            = some (goString "discord: unable to send request: " ++ err))
    ∨ (env.urlParseError c.webhookURL = none
        ∧ ∃ s, env.httpDo pos (requestFor env.version c feed entry) = .response s ∧ 400 ≤ s
        ∧ (sendLoop env c feed (entry :: entries) pos [] []).trace
            = [.request pos (requestFor env.version c feed entry), .bodyOpened pos,
                .bodyClosed pos]
        ∧ (sendLoop env c feed (entry :: entries) pos [] []).err
            = some (goString "discord: unable to send a notification: url="
                ++ c.webhookURL ++ goString " status=" ++ formatInt s))
    ∨ (env.urlParseError c.webhookURL = none
        ∧ ∃ s, env.httpDo pos (requestFor env.version c feed entry) = .response s ∧ s < 400
        ∧ (sendLoop env c feed (entry :: entries) pos [] []).trace
            = [.request pos (requestFor env.version c feed entry), .bodyOpened pos]
                ++ (sendLoop env c feed entries (pos + 1) [] []).trace ++ [.bodyClosed pos]
        ∧ (sendLoop env c feed (entry :: entries) pos [] []).err
            = (sendLoop env c feed entries (pos + 1) [] []).err) := by
  rcases hurl : env.urlParseError c.webhookURL with _ | err
  · rcases hdo : env.httpDo pos (requestFor env.version c feed entry) with err | s
    · right; left
      rw [sendLoop_transportError env c feed entry entries pos _ _ err hurl hdo]
      exact ⟨rfl, err, rfl, by simp [finish], rfl⟩
    · by_cases hs : 400 ≤ s
      · right; right; left
        rw [sendLoop_status env c feed entry entries pos _ _ s hurl hdo, if_pos hs]
        exact ⟨rfl, s, rfl, hs, by simp [finish], rfl⟩
      · right; right; right
        rw [sendLoop_ok env c feed entry entries pos s hurl hdo (by omega)]
        exact ⟨rfl, s, rfl, by omega, rfl, rfl⟩
  · left
    rw [sendLoop_urlError env c feed entry entries pos _ _ err hurl]
    exact ⟨err, rfl, by simp [finish], rfl⟩

theorem exchangeOK_transportError (env : Env) (c : Client) (feed : Feed) (pos : Nat)
    (entry : Entry) (err : Bytes)
    (h : env.httpDo pos (requestFor env.version c feed entry) = .transportError err) :
    exchangeOK env c feed pos entry = false := by
  simp [exchangeOK, h]

theorem exchangeOK_response (env : Env) (c : Client) (feed : Feed) (pos : Nat)
    (entry : Entry) (s : Int)
    (h : env.httpDo pos (requestFor env.version c feed entry) = .response s) :
    exchangeOK env c feed pos entry = decide (s < 400) := by
  simp [exchangeOK, h]

theorem requests_ok_trace (pos : Nat) (req : Request) (t : List Event) :
    requests ([.request pos req, .bodyOpened pos] ++ t ++ [.bodyClosed pos])
      = (pos, req) :: requests t := by
  simp [requests_append, requests]

/-- The requests of a run are those for a prefix of the entries, in order: one request
at most per position, none before its turn. -/
theorem requests_initial (env : Env) (c : Client) (feed : Feed) (entries : List Entry) :
    ∀ pos, requests (sendLoop env c feed entries pos [] []).trace
      <+: (entries.enumFrom pos).map fun p => (p.1, requestFor env.version c feed p.2) := by
  induction entries with
  | nil => intro pos; simp [sendLoop, finish, requests]
  | cons entry entries ih =>
    intro pos
    rcases sendLoop_cons env c feed entry entries pos with ⟨err, _, ht, _⟩ | ⟨_, err, _, ht, _⟩
      | ⟨_, s, _, _, ht, _⟩ | ⟨_, s, _, _, ht, _⟩
    · simp [ht, requests]
    · rw [ht]; simp [requests, List.enumFrom]
    · rw [ht]; simp [requests, List.enumFrom]
    · rw [ht, requests_ok_trace]
      simp only [List.enumFrom, List.map_cons]
      exact (List.prefix_cons_inj _).mpr (ih (pos + 1))

/-- With a URL that parses and every exchange answered below 400, every entry gets its
request and the call returns `nil`. -/
theorem sendLoop_all_ok (env : Env) (c : Client) (feed : Feed) (entries : List Entry)
    (hurl : env.urlParseError c.webhookURL = none) :
    ∀ pos, (∀ i e, entries[i]? = some e → exchangeOK env c feed (pos + i) e = true) →
      requests (sendLoop env c feed entries pos [] []).trace
          = (entries.enumFrom pos).map (fun p => (p.1, requestFor env.version c feed p.2))
        ∧ (sendLoop env c feed entries pos [] []).err = none := by
  induction entries with
  | nil => intro pos _; simp [sendLoop, finish, requests]
  | cons entry entries ih =>
    intro pos hall
    have h0 := hall 0 entry (by simp)
    have hrest : ∀ i e, entries[i]? = some e → exchangeOK env c feed (pos + 1 + i) e = true := by
      intro i e hi
      have := hall (i + 1) e (by simpa using hi)
      rwa [show pos + (i + 1) = pos + 1 + i by omega] at this
    obtain ⟨ihr, ihe⟩ := ih (pos + 1) hrest
    rcases sendLoop_cons env c feed entry entries pos with ⟨err, he, _⟩ | ⟨_, err, hd, _⟩
      | ⟨_, s, hd, hs, _⟩ | ⟨_, s, hd, hs, ht, herr⟩
    · rw [hurl] at he; cases he
    · rw [Nat.add_zero, exchangeOK_transportError env c feed pos entry err hd] at h0; cases h0
    · rw [Nat.add_zero, exchangeOK_response env c feed pos entry s hd] at h0
      simp at h0; omega
    · rw [ht, herr]
      refine ⟨?_, ihe⟩
      rw [requests_ok_trace, ihr]
      simp only [List.enumFrom, List.map_cons]

/-- With a URL that parses, the run stops at the first exchange that is not answered
below 400: its request is the last one, and the call returns an error. -/
theorem sendLoop_first_failure (env : Env) (c : Client) (feed : Feed) (entries : List Entry)
    (hurl : env.urlParseError c.webhookURL = none) :
    ∀ pos k e, entries[k]? = some e →
      (∀ i e', i < k → entries[i]? = some e' → exchangeOK env c feed (pos + i) e' = true) →
      exchangeOK env c feed (pos + k) e = false →
      requests (sendLoop env c feed entries pos [] []).trace
          = ((entries.take (k + 1)).enumFrom pos).map
              (fun p => (p.1, requestFor env.version c feed p.2))
        ∧ (sendLoop env c feed entries pos [] []).err.isSome = true := by
  induction entries with
  | nil => intro pos k e hk; simp at hk
  | cons entry entries ih =>
    intro pos k e hk hbefore hfail
    rcases sendLoop_cons env c feed entry entries pos with ⟨err, he, _⟩ | ⟨_, err, hd, ht, herr⟩
      | ⟨_, s, hd, hs, ht, herr⟩ | ⟨_, s, hd, hs, ht, herr⟩
    · rw [hurl] at he; cases he
    · rcases k with _ | k
      · rw [ht, herr]; simp [requests, List.enumFrom]
      · have := hbefore 0 entry (by omega) (by simp)
        rw [Nat.add_zero, exchangeOK_transportError env c feed pos entry err hd] at this
        cases this
    · rcases k with _ | k
      · rw [ht, herr]; simp [requests, List.enumFrom]
      · have := hbefore 0 entry (by omega) (by simp)
        rw [Nat.add_zero, exchangeOK_response env c feed pos entry s hd] at this
        simp at this; omega
    · rcases k with _ | k
      · simp only [List.getElem?_cons_zero, Option.some.injEq] at hk
        subst hk
        rw [Nat.add_zero, exchangeOK_response env c feed pos entry s hd] at hfail
        simp at hfail; omega
      · have hk' : entries[k]? = some e := by simpa using hk
        have hb' : ∀ i e', i < k → entries[i]? = some e' →
            exchangeOK env c feed (pos + 1 + i) e' = true := by
          intro i e' hi hie
          have := hbefore (i + 1) e' (by omega) (by simpa using hie)
          rwa [show pos + (i + 1) = pos + 1 + i by omega] at this
        have hf' : exchangeOK env c feed (pos + 1 + k) e = false := by
          rwa [show pos + (k + 1) = pos + 1 + k by omega] at hfail
        obtain ⟨ihr, ihe⟩ := ih (pos + 1) k e hk' hb' hf'
        rw [ht, herr]
        refine ⟨?_, ihe⟩
        rw [requests_ok_trace, ihr]
        simp only [List.enumFrom, List.map_cons, List.take_succ_cons]

/-- With a URL that parses, the call returns `nil` exactly when every exchange is
answered below 400. -/
theorem sendLoop_err_none_iff (env : Env) (c : Client) (feed : Feed) (entries : List Entry)
    (hurl : env.urlParseError c.webhookURL = none) :
    ∀ pos, (sendLoop env c feed entries pos [] []).err = none
      ↔ ∀ i e, entries[i]? = some e → exchangeOK env c feed (pos + i) e = true := by
  intro pos
  constructor
  · intro hnone
    by_contra hcon
    push_neg at hcon
    have hex : ∃ k, ∃ e, entries[k]? = some e ∧ exchangeOK env c feed (pos + k) e ≠ true := by
      obtain ⟨i, e, h1, h2⟩ := hcon
      exact ⟨i, e, h1, h2⟩
    classical
    obtain ⟨e, hk, hf⟩ := Nat.find_spec hex
    have hmin : ∀ i e', i < Nat.find hex → entries[i]? = some e' →
        exchangeOK env c feed (pos + i) e' = true := by
      intro i e' hi hie
      by_contra hne
      exact Nat.find_min hex hi ⟨e', hie, hne⟩
    have := (sendLoop_first_failure env c feed entries hurl pos (Nat.find hex) e hk hmin
      (by simpa using hf)).2
    rw [hnone] at this
    cases this
  · intro hall
    exact (sendLoop_all_ok env c feed entries hurl pos hall).2

/-! ## The requests of a call -/

/-- A request of a run from position `pos` is the request built for the entry at its
position, which is not in front of `pos`. -/
theorem request_of_mem (env : Env) (c : Client) (feed : Feed) (entries : List Entry)
    (start pos : Nat) (req : Request)
    (h : (pos, req) ∈ requests (sendLoop env c feed entries start [] []).trace) :
    start ≤ pos ∧ ∃ e, entries[pos - start]? = some e
      ∧ req = requestFor env.version c feed e := by
  have hm := (requests_initial env c feed entries start).mem h
  rw [List.mem_map] at hm
  obtain ⟨⟨i, e⟩, hie, heq⟩ := hm
  simp only [Prod.mk.injEq] at heq
  obtain ⟨rfl, rfl⟩ := heq
  rw [List.mk_mem_enumFrom_iff_le_and_getElem?_sub] at hie
  exact ⟨hie.1, e, hie.2, rfl⟩

/-- C1 (as amended). For a client whose webhook URL `http.NewRequest` accepts:
if every exchange is answered with a status below 400, `SendDiscordMsg` issues exactly
one request per entry, in sequence order, and returns `nil` (for no entry: no request and
`nil`); if the first exchange answered with a transport error or a status of 400 or more
is the one for the entry at index `k` (from zero), it issues exactly the requests for
the entries at indices `0..k`, none for a later entry, and returns an error; it returns
`nil` if and only if every exchange was answered with a status below 400. -/
theorem C1_requests_until_first_failure (env : Env) (c : Client) (feed : Feed)
    (entries : List Entry) (hurl : env.urlParseError c.webhookURL = none) :
    ((∀ i e, entries[i]? = some e → exchangeOK env c feed i e = true) →
        requests (SendDiscordMsg env c feed entries).trace
            = entries.enum.map (fun p => (p.1, requestFor env.version c feed p.2))
          ∧ (requests (SendDiscordMsg env c feed entries).trace).length = entries.length
          ∧ (SendDiscordMsg env c feed entries).err = none)
    ∧ (∀ k e, entries[k]? = some e →
        (∀ i e', i < k → entries[i]? = some e' → exchangeOK env c feed i e' = true) →
        exchangeOK env c feed k e = false →
        requests (SendDiscordMsg env c feed entries).trace
            = (entries.take (k + 1)).enum.map (fun p => (p.1, requestFor env.version c feed p.2))
          ∧ (requests (SendDiscordMsg env c feed entries).trace).length = k + 1
          ∧ (SendDiscordMsg env c feed entries).err.isSome = true)
    ∧ ((SendDiscordMsg env c feed entries).err = none
        ↔ ∀ i e, entries[i]? = some e → exchangeOK env c feed i e = true) := by
  refine ⟨?_, ?_, ?_⟩
  · intro hall
    obtain ⟨h1, h2⟩ := sendLoop_all_ok env c feed entries hurl 0 (by simpa using hall)
    refine ⟨h1, ?_, h2⟩
    unfold SendDiscordMsg
    rw [h1]
    simp
  · intro k e hk hbefore hfail
    obtain ⟨h1, h2⟩ := sendLoop_first_failure env c feed entries hurl 0 k e hk
      (by simpa using hbefore) (by simpa using hfail)
    refine ⟨h1, ?_, h2⟩
    unfold SendDiscordMsg
    rw [h1]
    have hlt : k < entries.length := by
      by_contra hge
      rw [List.getElem?_eq_none (by omega)] at hk
      cases hk
    simp
    omega
  · have := sendLoop_err_none_iff env c feed entries hurl 0
    simpa using this

/-- C2. When the request for an entry is answered with status `s`: if `s ≥ 400`, the call
returns the error `discord: unable to send a notification: url=<u> status=<s>` and issues
no request for a later entry; if `s < 400`, the loop goes on: the next entry, if there is
one, gets its request, and if there is none the call returns `nil`. -/
theorem C2_status_decides (env : Env) (c : Client) (feed : Feed) (entries : List Entry)
    (pos : Nat) (req : Request) (s : Int)
    (hreq : (pos, req) ∈ requests (SendDiscordMsg env c feed entries).trace)
    (hdo : env.httpDo pos req = .response s) :
    (400 ≤ s →
        (SendDiscordMsg env c feed entries).err
            = some (goString "discord: unable to send a notification: url=" ++ c.webhookURL
                ++ goString " status=" ++ formatInt s)
          ∧ ∀ pos' req', (pos', req') ∈ requests (SendDiscordMsg env c feed entries).trace →
              pos' ≤ pos)
    ∧ (s < 400 →
        (∀ e, entries[pos + 1]? = some e →
            (pos + 1, requestFor env.version c feed e)
              ∈ requests (SendDiscordMsg env c feed entries).trace)
          ∧ (entries.length = pos + 1 → (SendDiscordMsg env c feed entries).err = none)) := by
  unfold SendDiscordMsg at *
  have key : ∀ (es : List Entry) (start : Nat),
      (pos, req) ∈ requests (sendLoop env c feed es start [] []).trace →
      (400 ≤ s →
        (sendLoop env c feed es start [] []).err
            = some (goString "discord: unable to send a notification: url=" ++ c.webhookURL
                ++ goString " status=" ++ formatInt s)
          ∧ ∀ pos' req', (pos', req') ∈ requests (sendLoop env c feed es start [] []).trace →
              pos' ≤ pos)
      ∧ (s < 400 →
        (∀ e, es[pos + 1 - start]? = some e →
            (pos + 1, requestFor env.version c feed e)
              ∈ requests (sendLoop env c feed es start [] []).trace)
          ∧ (es.length = pos + 1 - start → (sendLoop env c feed es start [] []).err = none)) := by
    intro es
    induction es with
    | nil => intro start h; simp [sendLoop, finish, requests] at h
    | cons entry es ih =>
      intro start h
      rcases sendLoop_cons env c feed entry es start with ⟨err, _, ht, _⟩
        | ⟨_, err, hd, ht, _⟩ | ⟨_, s0, hd, hs0, ht, herr⟩ | ⟨hurl, s0, hd, hs0, ht, herr⟩
      · rw [ht] at h; simp [requests] at h
      · rw [ht] at h
        simp only [requests, List.mem_singleton, Prod.mk.injEq] at h
        obtain ⟨rfl, rfl⟩ := h
        rw [hd] at hdo; cases hdo
      · rw [ht] at h ⊢
        simp only [requests, List.mem_singleton, Prod.mk.injEq] at h ⊢
        obtain ⟨rfl, rfl⟩ := h
        rw [hd] at hdo; cases hdo
        refine ⟨fun _ => ⟨herr, fun pos' req' h' => by omega⟩, fun hlt => by omega⟩
      · rw [ht, requests_ok_trace] at h
        rw [ht, herr, requests_ok_trace]
        rcases List.mem_cons.mp h with heq | hin
        · simp only [Prod.mk.injEq] at heq
          obtain ⟨rfl, rfl⟩ := heq
          rw [hd] at hdo; cases hdo
          refine ⟨fun hge => by omega, fun _ => ⟨?_, ?_⟩⟩
          · intro e he
            have he0 : es[0]? = some e := by
              rw [show pos + 1 - pos = 1 by omega] at he
              simpa using he
            rcases es with _ | ⟨e1, es⟩
            · simp at he0
            simp only [List.getElem?_cons_zero, Option.some.injEq] at he0
            subst he0
            apply List.mem_cons_of_mem
            rcases sendLoop_cons env c feed e1 es (pos + 1) with ⟨err, he, _⟩
              | ⟨_, err, _, ht1, _⟩ | ⟨_, s1, _, _, ht1, _⟩ | ⟨_, s1, _, _, ht1, _⟩
            · rw [hurl] at he; cases he
            · rw [ht1]; simp [requests]
            · rw [ht1]; simp [requests]
            · rw [ht1, requests_ok_trace]; simp
          · intro hlen
            have : es = [] := by
              rcases es with _ | ⟨e1, es⟩
              · rfl
              · simp at hlen
            subst this
            simp [sendLoop, finish]
        · obtain ⟨hle, _⟩ := request_of_mem env c feed es (start + 1) pos req hin
          obtain ⟨ih1, ih2⟩ := ih (start + 1) hin
          refine ⟨fun hge => ⟨(ih1 hge).1, ?_⟩, fun hlt => ⟨?_, ?_⟩⟩
          · intro pos' req' h'
            rcases List.mem_cons.mp h' with heq | hin'
            · simp only [Prod.mk.injEq] at heq
              omega
            · exact (ih1 hge).2 pos' req' hin'
          · intro e he
            apply List.mem_cons_of_mem
            apply (ih2 hlt).1 e
            rw [show pos + 1 - start = (pos + 1 - (start + 1)) + 1 by omega] at he
            simpa using he
          · intro hlen
            apply (ih2 hlt).2
            simp only [List.length_cons] at hlen
            omega
  simpa using key entries 0 hreq

/-! ## Response bodies, client and request frame -/

theorem replay_append (t1 t2 : List Event) : ∀ open_ : List Nat,
    replay (t1 ++ t2) open_ = (replay t1 open_).bind (replay t2) := by
  induction t1 with
  | nil => intro open_; rfl
  | cons ev t ih =>
    intro open_
    cases ev with
    | request pos req => simp [replay, ih]
    | bodyOpened pos => simp only [List.cons_append, replay]; split_ifs <;> simp [ih]
    | bodyClosed pos => simp only [List.cons_append, replay]; split_ifs <;> simp [ih]

/-- A run leaves the set of open bodies as it found it, whatever bodies of earlier
positions are open. -/
theorem replay_sendLoop (env : Env) (c : Client) (feed : Feed) (entries : List Entry) :
    ∀ (pos : Nat) (open_ : List Nat), (∀ p ∈ open_, p < pos) →
      replay (sendLoop env c feed entries pos [] []).trace open_ = some open_ := by
  induction entries with
  | nil => intro pos open_ _; simp [sendLoop, finish, replay]
  | cons entry entries ih =>
    intro pos open_ hlt
    have hnot : pos ∉ open_ := fun h => Nat.lt_irrefl _ (hlt pos h)
    rcases sendLoop_cons env c feed entry entries pos with ⟨err, _, ht, _⟩
      | ⟨_, err, _, ht, _⟩ | ⟨_, s, _, _, ht, _⟩ | ⟨_, s, _, _, ht, _⟩
    · rw [ht]; rfl
    · rw [ht]; rfl
    · rw [ht]; simp [replay, hnot]
    · rw [ht, replay_append, replay_append]
      have hlt' : ∀ p ∈ pos :: open_, p < pos + 1 := by
        intro p hp
        rcases List.mem_cons.mp hp with rfl | hp
        · omega
        · have := hlt p hp; omega
      simp [replay, hnot, ih (pos + 1) (pos :: open_) hlt']

/-- Every body is opened at most once and closed as often as it is opened, and the run
from position `start` opens no body of an earlier position. -/
theorem count_sendLoop (env : Env) (c : Client) (feed : Feed) (entries : List Entry) :
    ∀ (start pos : Nat),
      List.count (Event.bodyOpened pos) (sendLoop env c feed entries start [] []).trace ≤ 1
      ∧ List.count (Event.bodyClosed pos) (sendLoop env c feed entries start [] []).trace
          = List.count (Event.bodyOpened pos) (sendLoop env c feed entries start [] []).trace
      ∧ (pos < start →
          List.count (Event.bodyOpened pos) (sendLoop env c feed entries start [] []).trace = 0) := by
  induction entries with
  | nil => intro start pos; simp [sendLoop, finish]
  | cons entry entries ih =>
    intro start pos
    rcases sendLoop_cons env c feed entry entries start with ⟨err, _, ht, _⟩
      | ⟨_, err, _, ht, _⟩ | ⟨_, s, _, _, ht, _⟩ | ⟨_, s, _, _, ht, _⟩
    · rw [ht]; simp
    · rw [ht]; simp
    · rw [ht]
      by_cases hp : start = pos
      · subst hp; simp
      · have hp' : ¬ pos = start := fun h => hp h.symm
        simp [List.count_cons, hp, hp']
    · rw [ht]
      obtain ⟨h1, h2, h3⟩ := ih (start + 1) pos
      by_cases hp : start = pos
      · subst hp
        have h0 := h3 (by omega)
        simp [List.count_cons, List.count_append, h2, h0]
      · have hp' : ¬ pos = start := fun h => hp h.symm
        simp only [List.count_cons, List.count_append, List.count_nil, h2, beq_iff_eq,
          Event.bodyOpened.injEq, Event.bodyClosed.injEq, hp, hp', if_false, reduceCtorEq]
        refine ⟨by omega, trivial, fun hlt => ?_⟩
        have := h3 (by omega)
        omega

/-- C7. When `SendDiscordMsg` returns, with `nil` or with an error, every response body
that it obtained during the call has been closed exactly once, no body was closed that
was not open, and no body is open any more. -/
theorem C7_bodies_closed_at_return (env : Env) (c : Client) (feed : Feed)
    (entries : List Entry) :
    replay (SendDiscordMsg env c feed entries).trace [] = some []
    ∧ ∀ pos,
        List.count (Event.bodyOpened pos) (SendDiscordMsg env c feed entries).trace ≤ 1
        ∧ List.count (Event.bodyClosed pos) (SendDiscordMsg env c feed entries).trace
            = List.count (Event.bodyOpened pos) (SendDiscordMsg env c feed entries).trace := by
  refine ⟨replay_sendLoop env c feed entries 0 [] (by simp), fun pos => ?_⟩
  obtain ⟨h1, h2, _⟩ := count_sendLoop env c feed entries 0 pos
  exact ⟨h1, h2⟩

theorem goString_append (a b : String) : goString (a ++ b) = goString a ++ goString b := by
  simp [goString, String.data_append]

/-- C8. `NewClient u` stores `u` whatever it is; every request that a call on this client
issues is a POST to `u` with the headers `Content-Type: application/json` and
`User-Agent: Miniflux/<version>`; and after the call the client still holds `u`. -/
theorem C8_client_and_request_frame (env : Env) (u : Bytes) (feed : Feed)
    (entries : List Entry) :
    (NewClient u).webhookURL = u
    ∧ (SendDiscordMsg env (NewClient u) feed entries).client.webhookURL = u
    ∧ ∀ pos req, (pos, req) ∈ requests (SendDiscordMsg env (NewClient u) feed entries).trace →
        req.Method = goString "POST" ∧ req.URL = u
        ∧ req.Header.Get (goString "Content-Type") = some (goString "application/json")
        ∧ req.Header.Get (goString "User-Agent") = some (goString "Miniflux/" ++ env.version)
        ∧ req.Header.length = 2 := by
  refine ⟨rfl, ?_, ?_⟩
  · unfold SendDiscordMsg
    rw [sendLoop_client]
    rfl
  · intro pos req h
    obtain ⟨_, e, _, rfl⟩ := request_of_mem env (NewClient u) feed entries 0 pos req h
    have hk1 : goString "Content-Type" = [67, 111, 110, 116, 101, 110, 116, 45, 84, 121, 112, 101] := by
      decide
    have hk2 : goString "User-Agent" = [85, 115, 101, 114, 45, 65, 103, 101, 110, 116] := by
      decide
    refine ⟨rfl, rfl, ?_, ?_, ?_⟩
    · simp [requestFor, withHeaders, Header.Set, Header.Get, hk1, hk2, List.lookup]
    · simp [requestFor, withHeaders, Header.Set, Header.Get, hk1, hk2, List.lookup]
    · simp [requestFor, withHeaders, Header.Set, hk1, hk2]

/-- C9. The body of a request depends on the feed, the entry and the version only: two
runs with the same feed and version, whatever their clients, their other entries and the
answers they get, send the same body for the same entry value, namely the serialised
message for that entry; and a run issues at most one request for each position. -/
theorem C9_body_independent (env1 env2 : Env) (c1 c2 : Client) (feed : Feed)
    (entries1 entries2 : List Entry) (i j : Nat) (req1 req2 : Request) (e : Entry)
    (hv : env1.version = env2.version)
    (h1 : (i, req1) ∈ requests (SendDiscordMsg env1 c1 feed entries1).trace)
    (h2 : (j, req2) ∈ requests (SendDiscordMsg env2 c2 feed entries2).trace)
    (he1 : entries1[i]? = some e) (he2 : entries2[j]? = some e) :
    req1.Body = req2.Body
    ∧ req1.Body = render (messageFor env1.version feed e).toJSON
    ∧ ((requests (SendDiscordMsg env1 c1 feed entries1).trace).map Prod.fst).Nodup
    ∧ (requests (SendDiscordMsg env1 c1 feed entries1).trace).length ≤ entries1.length := by
  obtain ⟨_, e1, hg1, rfl⟩ := request_of_mem env1 c1 feed entries1 0 i req1 h1
  obtain ⟨_, e2, hg2, rfl⟩ := request_of_mem env2 c2 feed entries2 0 j req2 h2
  rw [Nat.sub_zero, he1] at hg1
  rw [Nat.sub_zero, he2] at hg2
  cases hg1
  cases hg2
  have hp := requests_initial env1 c1 feed entries1 0
  refine ⟨?_, ?_, ?_, ?_⟩
  · simp [requestFor, withHeaders, hv]
  · simp [requestFor, withHeaders]
  · have hs := (hp.sublist.map Prod.fst)
    refine hs.nodup ?_
    rw [List.map_map]
    have : (Prod.fst ∘ fun p : Nat × Entry => (p.1, requestFor env1.version c1 feed p.2))
        = Prod.fst := rfl
    rw [this, List.enumFrom_map_fst]
    exact List.nodup_range' _ _
  · have := hp.length_le
    simpa using this

/-! ## The serialised message -/

/-- Fuel beyond the length of the source changes nothing: `appendStringBody` never runs
out of fuel when started with the length of the source. -/
theorem appendStringBody_succ (f : Nat) : ∀ s : Bytes, s.length ≤ f →
    appendStringBody (f + 1) s = appendStringBody f s := by
  induction f with
  | zero =>
    intro s hs
    have : s = [] := List.eq_nil_of_length_eq_zero (by omega)
    subst this
    simp [appendStringBody]
  | succ f ih =>
    intro s hs
    rcases s with _ | ⟨b, rest⟩
    · simp [appendStringBody]
    · have hw := decodeRune_width_pos b rest
      have hrest : rest.length ≤ f := by simp at hs; omega
      have hdrop : ((b :: rest).drop (decodeRune (b :: rest)).2).length ≤ f := by
        simp only [List.length_drop, List.length_cons] at hs ⊢
        omega
      simp only [appendStringBody, decodeRune_take4]
      rw [ih rest hrest, ih _ hdrop]

theorem appendStringBody_fuel (s : Bytes) : ∀ f, s.length ≤ f →
    appendStringBody f s = appendStringBody s.length s := by
  intro f hf
  induction f with
  | zero =>
    have : s = [] := List.eq_nil_of_length_eq_zero (by omega)
    subst this
    rfl
  | succ f ih =>
    by_cases h : s.length ≤ f
    · rw [appendStringBody_succ f s h, ih h]
    · have : s.length = f + 1 := by omega
      rw [this]

/-- Bytes that need no escape are copied. -/
theorem appendStringBody_safe (p : Bytes) (hp : ∀ b ∈ p, htmlSafe b = true) (s : Bytes) :
    appendStringBody (p ++ s).length (p ++ s) = p ++ appendStringBody s.length s := by
  induction p with
  | nil => rfl
  | cons b p ih =>
    have hb : htmlSafe b = true := hp b (List.mem_cons_self _ _)
    have hb2 : b < 0x80 := by
      simp only [htmlSafe, Bool.and_eq_true, decide_eq_true_eq] at hb
      omega
    have ih' := ih (fun x hx => hp x (List.mem_cons_of_mem _ hx))
    simp only [List.cons_append, List.length_cons, appendStringBody, hb2, if_true,
      escapeASCII, hb, List.singleton_append]
    exact congrArg (List.cons b) ih'

/-- The bullet U+2022 is copied. -/
theorem appendStringBody_bullet (s : Bytes) :
    appendStringBody (0xE2 :: 0x80 :: 0xA2 :: s).length (0xE2 :: 0x80 :: 0xA2 :: s)
      = 0xE2 :: 0x80 :: 0xA2 :: appendStringBody s.length s := by
  have hd : decodeRune (0xE2 :: 0x80 :: 0xA2 :: s) = (0x2022, 3) := by
    have hlen : ¬ (s.length + 1 + 1 + 1 < 3) := by omega
    simp [decodeRune, hlen]
    rfl
  simp only [List.length_cons, appendStringBody, decodeRune_take4, hd]
  simp [RuneError]
  exact appendStringBody_fuel s _ (by omega)

theorem key_username : appendString (goString "username") = goString "\"username\"" := by decide
theorem key_avatar_url : appendString (goString "avatar_url") = goString "\"avatar_url\"" := by
  decide
theorem key_content : appendString (goString "content") = goString "\"content\"" := by decide
theorem key_embeds : appendString (goString "embeds") = goString "\"embeds\"" := by decide
theorem key_title : appendString (goString "title") = goString "\"title\"" := by decide
theorem key_url : appendString (goString "url") = goString "\"url\"" := by decide
theorem key_description : appendString (goString "description") = goString "\"description\"" := by
  decide
theorem key_color : appendString (goString "color") = goString "\"color\"" := by decide
theorem key_footer : appendString (goString "footer") = goString "\"footer\"" := by decide
theorem key_text : appendString (goString "text") = goString "\"text\"" := by decide
theorem key_icon_url : appendString (goString "icon_url") = goString "\"icon_url\"" := by decide

theorem footerText_ne_nil (version : Bytes) (entry : Entry) :
    (footerText version entry).isEmpty = false := by
  have h : goString " " = [0x20] := by decide
  rcases entry with ⟨t, u, a⟩
  cases a <;> simp [footerText, h]

/-- The serialised message, piece by piece: a member with an empty value is not written. -/
theorem render_message (version : Bytes) (feed : Feed) (entry : Entry) :
    render (messageFor version feed entry).toJSON
      = goString "\x7b\"embeds\":[\x7b"
        ++ (if entry.Title.isEmpty then []
            else goString "\"title\":" ++ appendString entry.Title ++ goString ",")
        ++ (if entry.URL.isEmpty then []
            else goString "\"url\":" ++ appendString entry.URL ++ goString ",")
        ++ (if feed.Title.isEmpty then []
            else goString "\"description\":" ++ appendString feed.Title ++ goString ",")
        ++ goString "\"color\":5793266,\"footer\":\x7b\"text\":"
        ++ appendString (footerText version entry)
        ++ (if feed.IconURL.isEmpty then []
            else goString ",\"icon_url\":" ++ appendString feed.IconURL)
        ++ goString "\x7d\x7d]\x7d" := by
  have hft := footerText_ne_nil version entry
  have c1 : goString "\x7b\"embeds\":[\x7b" = [123, 34, 101, 109, 98, 101, 100, 115, 34, 58, 91, 123] := by
    decide
  have c2 : goString "\"title\":" = [34, 116, 105, 116, 108, 101, 34, 58] := by decide
  have c3 : goString "," = [44] := by decide
  have c4 : goString "\"url\":" = [34, 117, 114, 108, 34, 58] := by decide
  have c5 : goString "\"description\":"
      = [34, 100, 101, 115, 99, 114, 105, 112, 116, 105, 111, 110, 34, 58] := by decide
  have c6 : goString "\"color\":5793266,\"footer\":\x7b\"text\":"
      = [34, 99, 111, 108, 111, 114, 34, 58, 53, 55, 57, 51, 50, 54, 54, 44, 34, 102, 111, 111,
          116, 101, 114, 34, 58, 123, 34, 116, 101, 120, 116, 34, 58] := by decide
  have c7 : goString ",\"icon_url\":" = [44, 34, 105, 99, 111, 110, 95, 117, 114, 108, 34, 58] := by
    decide
  have c8 : goString "\x7d\x7d]\x7d" = [125, 125, 93, 125] := by decide
  have k1 : goString "\"embeds\"" = [34, 101, 109, 98, 101, 100, 115, 34] := by decide
  have k2 : goString "\"title\"" = [34, 116, 105, 116, 108, 101, 34] := by decide
  have k3 : goString "\"url\"" = [34, 117, 114, 108, 34] := by decide
  have k4 : goString "\"description\""
      = [34, 100, 101, 115, 99, 114, 105, 112, 116, 105, 111, 110, 34] := by decide
  have k5 : goString "\"color\"" = [34, 99, 111, 108, 111, 114, 34] := by decide
  have k6 : goString "\"footer\"" = [34, 102, 111, 111, 116, 101, 114, 34] := by decide
  have k7 : goString "\"text\"" = [34, 116, 101, 120, 116, 34] := by decide
  have k8 : goString "\"icon_url\"" = [34, 105, 99, 111, 110, 95, 117, 114, 108, 34] := by decide
  have hc : formatInt 5793266 = [53, 55, 57, 51, 50, 54, 54] := by decide
  rw [c1, c2, c3, c4, c5, c6, c7, c8]
  generalize hF : appendString (footerText version entry) = F
  rcases feed with ⟨ft, fi⟩
  rcases entry with ⟨et, eu, ea⟩
  simp only [messageFor, discordMessage.toJSON, discordEmbed.toJSON, discordFooter.toJSON,
    footerMember, omitempty, List.isEmpty_nil, if_true, List.isEmpty_cons, List.map,
    List.nil_append, hft, Bool.false_eq_true, if_false, render, renderElems]
  rcases ft with _ | ⟨ft0, ft⟩ <;> rcases fi with _ | ⟨fi0, fi⟩ <;> rcases et with _ | ⟨et0, et⟩
    <;> rcases eu with _ | ⟨eu0, eu⟩ <;>
  simp [renderMembers, renderElems, render, key_embeds, key_title, key_url, key_description, key_color,
    key_footer, key_text, key_icon_url, k1, k2, k3, k4, k5, k6, k7, k8, hc, hF]

theorem footerText_eq (version : Bytes) (entry : Entry) :
    footerText version entry = entry.Author ++ goString " • Miniflux/" ++ version := by
  have h1 : goString " " = [0x20] := by decide
  have h2 : goString "•" = [0xE2, 0x80, 0xA2] := by decide
  have h3 : goString "Miniflux/" = [77, 105, 110, 105, 102, 108, 117, 120, 47] := by decide
  have h4 : goString " • Miniflux/"
      = [0x20, 0xE2, 0x80, 0xA2, 0x20, 77, 105, 110, 105, 102, 108, 117, 120, 47] := by decide
  simp [footerText, h1, h2, h3, h4]

/-- The footer text of an author without a byte to escape, as a JSON string literal. -/
theorem appendString_footerText (version : Bytes) (entry : Entry)
    (h : ∀ b ∈ entry.Author, htmlSafe b = true) :
    appendString (footerText version entry)
      = 0x22 :: (entry.Author ++ goString " • Miniflux/"
          ++ appendStringBody version.length version) ++ [0x22] := by
  have h4 : goString " • Miniflux/"
      = [0x20, 0xE2, 0x80, 0xA2, 0x20, 77, 105, 110, 105, 102, 108, 117, 120, 47] := by decide
  have e1 : footerText version entry
      = (entry.Author ++ [0x20])
        ++ (0xE2 :: 0x80 :: 0xA2 :: ([0x20, 77, 105, 110, 105, 102, 108, 117, 120, 47] ++ version)) := by
    rw [footerText_eq, h4]; simp
  have s1 : ∀ b ∈ entry.Author ++ [0x20], htmlSafe b = true := by
    intro b hb
    rcases List.mem_append.mp hb with hb | hb
    · exact h b hb
    · simp only [List.mem_singleton] at hb; subst hb; decide
  have s2 : ∀ b ∈ [0x20, 77, 105, 110, 105, 102, 108, 117, 120, 47], htmlSafe b = true := by
    decide
  unfold appendString
  rw [e1, appendStringBody_safe _ s1, appendStringBody_bullet, appendStringBody_safe _ s2, h4]
  simp

set_option maxRecDepth 100000 in
/-- The serialised message of the scenario of the spec: feed `Tech News` with icon
`https://x/icon.png`, entry `Item A` at `https://x/a` by `alice`. -/
theorem render_scenario (version : Bytes) :
    render (messageFor version
          { Title := goString "Tech News", IconURL := goString "https://x/icon.png" }
          { Title := goString "Item A", URL := goString "https://x/a",
            Author := goString "alice" }).toJSON
        = goString ("\x7b\"embeds\":[\x7b\"title\":\"Item A\",\"url\":\"https://x/a\","
              ++ "\"description\":\"Tech News\",\"color\":5793266,"
              ++ "\"footer\":\x7b\"text\":\"alice • Miniflux/")
            ++ appendStringBody version.length version
            ++ goString "\",\"icon_url\":\"https://x/icon.png\"\x7d\x7d]\x7d" := by
  have ha : ∀ b ∈ goString "alice", htmlSafe b = true := by decide
  have hf := appendString_footerText version
    { Title := goString "Item A", URL := goString "https://x/a", Author := goString "alice" } ha
  simp only [render_message, hf]
  have v1 : appendString (goString "Item A") = goString "\"Item A\"" := by decide
  have v2 : appendString (goString "https://x/a") = goString "\"https://x/a\"" := by decide
  have v3 : appendString (goString "Tech News") = goString "\"Tech News\"" := by decide
  have v4 : appendString (goString "https://x/icon.png") = goString "\"https://x/icon.png\"" := by
    decide
  have n1 : (goString "Item A").isEmpty = false := by decide
  have n2 : (goString "https://x/a").isEmpty = false := by decide
  have n3 : (goString "Tech News").isEmpty = false := by decide
  have n4 : (goString "https://x/icon.png").isEmpty = false := by decide
  have w1 : goString "\"Item A\"" = [34, 73, 116, 101, 109, 32, 65, 34] := by decide
  have w2 : goString "\"https://x/a\""
      = [34, 104, 116, 116, 112, 115, 58, 47, 47, 120, 47, 97, 34] := by decide
  have w3 : goString "\"Tech News\"" = [34, 84, 101, 99, 104, 32, 78, 101, 119, 115, 34] := by
    decide
  have w4 : goString "\"https://x/icon.png\""
      = [34, 104, 116, 116, 112, 115, 58, 47, 47, 120, 47, 105, 99, 111, 110, 46, 112, 110,
          103, 34] := by decide
  have w5 : goString "alice" = [97, 108, 105, 99, 101] := by decide
  have w6 : goString " • Miniflux/"
      = [0x20, 0xE2, 0x80, 0xA2, 0x20, 77, 105, 110, 105, 102, 108, 117, 120, 47] := by decide
  have c1 : goString "\x7b\"embeds\":[\x7b" = [123, 34, 101, 109, 98, 101, 100, 115, 34, 58, 91, 123] := by
    decide
  have c2 : goString "\"title\":" = [34, 116, 105, 116, 108, 101, 34, 58] := by decide
  have c3 : goString "," = [44] := by decide
  have c4 : goString "\"url\":" = [34, 117, 114, 108, 34, 58] := by decide
  have c5 : goString "\"description\":"
      = [34, 100, 101, 115, 99, 114, 105, 112, 116, 105, 111, 110, 34, 58] := by decide
  have c6 : goString "\"color\":5793266,\"footer\":\x7b\"text\":"
      = [34, 99, 111, 108, 111, 114, 34, 58, 53, 55, 57, 51, 50, 54, 54, 44, 34, 102, 111, 111,
          116, 101, 114, 34, 58, 123, 34, 116, 101, 120, 116, 34, 58] := by decide
  have c7 : goString ",\"icon_url\":" = [44, 34, 105, 99, 111, 110, 95, 117, 114, 108, 34, 58] := by
    decide
  have c8 : goString "\x7d\x7d]\x7d" = [125, 125, 93, 125] := by decide
  have r1 : goString ("\x7b\"embeds\":[\x7b\"title\":\"Item A\",\"url\":\"https://x/a\","
            ++ "\"description\":\"Tech News\",\"color\":5793266,"
            ++ "\"footer\":\x7b\"text\":\"alice • Miniflux/")
      = [123, 34, 101, 109, 98, 101, 100, 115, 34, 58, 91, 123]
        ++ [34, 116, 105, 116, 108, 101, 34, 58] ++ [34, 73, 116, 101, 109, 32, 65, 34] ++ [44]
        ++ [34, 117, 114, 108, 34, 58]
        ++ [34, 104, 116, 116, 112, 115, 58, 47, 47, 120, 47, 97, 34] ++ [44]
        ++ [34, 100, 101, 115, 99, 114, 105, 112, 116, 105, 111, 110, 34, 58]
        ++ [34, 84, 101, 99, 104, 32, 78, 101, 119, 115, 34] ++ [44]
        ++ [34, 99, 111, 108, 111, 114, 34, 58, 53, 55, 57, 51, 50, 54, 54, 44, 34, 102, 111,
             111, 116, 101, 114, 34, 58, 123, 34, 116, 101, 120, 116, 34, 58]
        ++ [34] ++ [97, 108, 105, 99, 101]
        ++ [0x20, 0xE2, 0x80, 0xA2, 0x20, 77, 105, 110, 105, 102, 108, 117, 120, 47] := by
    decide
  have r2 : goString "\",\"icon_url\":\"https://x/icon.png\"\x7d\x7d]\x7d"
      = [34] ++ [44, 34, 105, 99, 111, 110, 95, 117, 114, 108, 34, 58]
        ++ [34, 104, 116, 116, 112, 115, 58, 47, 47, 120, 47, 105, 99, 111, 110, 46, 112, 110,
             103, 34] ++ [125, 125, 93, 125] := by
    decide
  rw [r1, r2]
  simp only [v1, v2, v3, v4, n1, n2, n3, n4, Bool.false_eq_true, if_false, w1, w2, w3, w4,
    w5, w6, c1, c2, c3, c4, c5, c6, c7, c8]
  simp only [List.append_assoc, List.cons_append, List.nil_append]

/-- C3. The message built for an entry leaves `username`, `avatar_url` and `content`
unset and has exactly one embed, with the entry title, the entry URL, the feed title as
description, the colour 5793266 and a footer with the text `<author> • Miniflux/<version>`
and the feed icon. For the feed `Tech News` with icon `https://x/icon.png` and the single
entry `Item A` at `https://x/a` by `alice`, the serialised message is the JSON object
given, with no other key, and it is the body of the one request that the call can issue;
the version appears in it as `json.Marshal` escapes it. -/
theorem C3_message_of_entry (env : Env) (c : Client) (feed : Feed) (entry : Entry) :
    (messageFor env.version feed entry).Username = []
    ∧ (messageFor env.version feed entry).AvatarUrl = []
    ∧ (messageFor env.version feed entry).Content = []
    ∧ (messageFor env.version feed entry).Embeds
        = [{ Title := entry.Title, Url := entry.URL, Description := feed.Title,
             Color := 5793266,
             Footer := some { Text := entry.Author ++ goString " • Miniflux/" ++ env.version,
                              IconUrl := feed.IconURL } }]
    ∧ jsonMarshal (messageFor env.version
          { Title := goString "Tech News", IconURL := goString "https://x/icon.png" }
          { Title := goString "Item A", URL := goString "https://x/a",
            Author := goString "alice" })
        = .ok (goString ("\x7b\"embeds\":[\x7b\"title\":\"Item A\",\"url\":\"https://x/a\","
              ++ "\"description\":\"Tech News\",\"color\":5793266,"
              ++ "\"footer\":\x7b\"text\":\"alice • Miniflux/")
            ++ appendStringBody env.version.length env.version
            ++ goString "\",\"icon_url\":\"https://x/icon.png\"\x7d\x7d]\x7d")
    ∧ ∀ pos req,
        (pos, req) ∈ requests (SendDiscordMsg env c
            { Title := goString "Tech News", IconURL := goString "https://x/icon.png" }
            [{ Title := goString "Item A", URL := goString "https://x/a",
               Author := goString "alice" }]).trace →
        pos = 0
        ∧ req.Body
          = goString ("\x7b\"embeds\":[\x7b\"title\":\"Item A\",\"url\":\"https://x/a\","
              ++ "\"description\":\"Tech News\",\"color\":5793266,"
              ++ "\"footer\":\x7b\"text\":\"alice • Miniflux/")
            ++ appendStringBody env.version.length env.version
            ++ goString "\",\"icon_url\":\"https://x/icon.png\"\x7d\x7d]\x7d" := by
  refine ⟨rfl, rfl, rfl, ?_, ?_, ?_⟩
  · simp [messageFor, footerText_eq]
  · rw [jsonMarshal, render_scenario]
  · intro pos req h
    obtain ⟨_, e, he, rfl⟩ := request_of_mem env c _ _ 0 pos req h
    rcases pos with _ | pos
    · simp only [Nat.sub_zero, List.getElem?_cons_zero, Option.some.injEq] at he
      subst he
      exact ⟨rfl, render_scenario env.version⟩
    · simp at he

theorem valid_key_embeds : toValidUTF8 (goString "embeds") = goString "embeds" := by decide
theorem valid_key_title : toValidUTF8 (goString "title") = goString "title" := by decide
theorem valid_key_url : toValidUTF8 (goString "url") = goString "url" := by decide
theorem valid_key_description : toValidUTF8 (goString "description") = goString "description" := by
  decide
theorem valid_key_color : toValidUTF8 (goString "color") = goString "color" := by decide
theorem valid_key_footer : toValidUTF8 (goString "footer") = goString "footer" := by decide
theorem valid_key_text : toValidUTF8 (goString "text") = goString "text" := by decide
theorem valid_key_icon_url : toValidUTF8 (goString "icon_url") = goString "icon_url" := by decide

/-- Coercion to valid UTF-8 never empties a string. -/
theorem toValidUTF8_ne_nil (s : Bytes) (h : s ≠ []) : toValidUTF8 s ≠ [] := by
  rcases s with _ | ⟨b, rest⟩
  · exact absurd rfl h
  · have hw := decodeRune_width_pos b rest
    simp only [toValidUTF8, List.length_cons, toValidUTF8From]
    split_ifs
    · simp
    · obtain ⟨k, hk⟩ : ∃ k, (decodeRune (b :: rest)).2 = k + 1 :=
        ⟨(decodeRune (b :: rest)).2 - 1, by omega⟩
      rw [hk]
      simp

/-- What a decoder reads from the serialised message of an entry. -/
theorem decode_message (version : Bytes) (feed : Feed) (entry : Entry) :
    jsonDecode (render (messageFor version feed entry).toJSON)
      = some (.obj [(goString "embeds", .arr [.obj (
          omitempty (goString "title") entry.Title.isEmpty (.str (toValidUTF8 entry.Title))
          ++ omitempty (goString "url") entry.URL.isEmpty (.str (toValidUTF8 entry.URL))
          ++ omitempty (goString "description") feed.Title.isEmpty
              (.str (toValidUTF8 feed.Title))
          ++ [(goString "color", .num 5793266),
              (goString "footer", .obj ((goString "text",
                  .str (toValidUTF8 (footerText version entry)))
                :: omitempty (goString "icon_url") feed.IconURL.isEmpty
                    (.str (toValidUTF8 feed.IconURL))))])])]) := by
  rw [jsonDecode_render]
  have hft := footerText_ne_nil version entry
  rcases feed with ⟨ft, fi⟩
  rcases entry with ⟨et, eu, ea⟩
  simp only [messageFor, discordMessage.toJSON, discordEmbed.toJSON, discordFooter.toJSON,
    footerMember, omitempty, List.isEmpty_nil, if_true, List.isEmpty_cons, List.map,
    List.nil_append, hft, Bool.false_eq_true, if_false]
  rcases ft with _ | ⟨ft0, ft⟩ <;> rcases fi with _ | ⟨fi0, fi⟩ <;> rcases et with _ | ⟨et0, et⟩
    <;> rcases eu with _ | ⟨eu0, eu⟩ <;>
  simp [JSON.sanitize, sanitizeElems, sanitizeMembers, valid_key_embeds, valid_key_title,
    valid_key_url, valid_key_description, valid_key_color, valid_key_footer, valid_key_text,
    valid_key_icon_url]

theorem gk_username : goString "username" = [117, 115, 101, 114, 110, 97, 109, 101] := by decide
theorem gk_avatar_url : goString "avatar_url"
    = [97, 118, 97, 116, 97, 114, 95, 117, 114, 108] := by decide
theorem gk_content : goString "content" = [99, 111, 110, 116, 101, 110, 116] := by decide
theorem gk_embeds : goString "embeds" = [101, 109, 98, 101, 100, 115] := by decide
theorem gk_title : goString "title" = [116, 105, 116, 108, 101] := by decide
theorem gk_url : goString "url" = [117, 114, 108] := by decide
theorem gk_description : goString "description"
    = [100, 101, 115, 99, 114, 105, 112, 116, 105, 111, 110] := by decide
theorem gk_color : goString "color" = [99, 111, 108, 111, 114] := by decide
theorem gk_footer : goString "footer" = [102, 111, 111, 116, 101, 114] := by decide
theorem gk_text : goString "text" = [116, 101, 120, 116] := by decide
theorem gk_icon_url : goString "icon_url" = [105, 99, 111, 110, 95, 117, 114, 108] := by decide

/-- C4. In the serialised message, as a JSON decoder reads it, the only top-level member
is `embeds` with one embed; the embed has a member `title` iff the entry title is not
empty, `url` iff the entry URL is not empty, `description` iff the feed title is not
empty; its footer has a member `icon_url` iff the feed icon URL is not empty; no member of
the embed or of the footer is the empty string; and none of `username`, `avatar_url`,
`content` is a member anywhere. -/
theorem C4_empty_fields_omitted (version : Bytes) (feed : Feed) (entry : Entry) :
    ∃ body embedMembers footerMembers,
      jsonMarshal (messageFor version feed entry) = .ok body
      ∧ jsonDecode body = some (.obj [(goString "embeds", .arr [.obj embedMembers])])
      ∧ List.lookup (goString "footer") embedMembers = some (.obj footerMembers)
      ∧ (goString "title" ∈ embedMembers.map Prod.fst ↔ entry.Title ≠ [])
      ∧ (goString "url" ∈ embedMembers.map Prod.fst ↔ entry.URL ≠ [])
      ∧ (goString "description" ∈ embedMembers.map Prod.fst ↔ feed.Title ≠ [])
      ∧ (goString "icon_url" ∈ footerMembers.map Prod.fst ↔ feed.IconURL ≠ [])
      ∧ (∀ m ∈ embedMembers ++ footerMembers, m.2 ≠ .str [])
      ∧ (∀ k ∈ [goString "username", goString "avatar_url", goString "content"],
          k ≠ goString "embeds" ∧ k ∉ embedMembers.map Prod.fst
            ∧ k ∉ footerMembers.map Prod.fst) := by
  refine ⟨_, _, (goString "text", .str (toValidUTF8 (footerText version entry)))
      :: omitempty (goString "icon_url") feed.IconURL.isEmpty (.str (toValidUTF8 feed.IconURL)),
    rfl, decode_message version feed entry, ?_⟩
  have hft : toValidUTF8 (footerText version entry) ≠ [] :=
    toValidUTF8_ne_nil _ (by
      have := footerText_ne_nil version entry
      intro h; rw [h] at this; cases this)
  rcases feed with ⟨ft, fi⟩
  rcases entry with ⟨et, eu, ea⟩
  simp only [omitempty, gk_username, gk_avatar_url, gk_content, gk_embeds, gk_title, gk_url,
    gk_description, gk_color, gk_footer, gk_text, gk_icon_url]
  rcases ft with _ | ⟨ft0, ft⟩ <;> rcases fi with _ | ⟨fi0, fi⟩ <;> rcases et with _ | ⟨et0, et⟩
    <;> rcases eu with _ | ⟨eu0, eu⟩ <;>
  simp [List.lookup, hft, toValidUTF8_ne_nil]

/-- What a decoder reads as title and description of the first embed: the entry title
and the feed title, coerced to valid UTF-8. -/
theorem firstEmbed_fields (version : Bytes) (feed : Feed) (entry : Entry) :
    ∃ embed, firstEmbed (render (messageFor version feed entry).toJSON) = some embed
      ∧ embed.stringField (goString "description") = toValidUTF8 feed.Title
      ∧ embed.stringField (goString "title") = toValidUTF8 entry.Title := by
  refine ⟨_, by
    rw [firstEmbed, decode_message]
    simp only [Option.bind, JSON.get, List.lookup, beq_self_eq_true, JSON.elem]
    rfl, ?_⟩
  have hnil : toValidUTF8 [] = [] := rfl
  rcases feed with ⟨ft, fi⟩
  rcases entry with ⟨et, eu, ea⟩
  simp only [omitempty, gk_embeds, gk_title, gk_url, gk_description, gk_color, gk_footer,
    gk_text, gk_icon_url, JSON.stringField, JSON.get]
  rcases ft with _ | ⟨ft0, ft⟩ <;> rcases et with _ | ⟨et0, et⟩
    <;> rcases eu with _ | ⟨eu0, eu⟩ <;>
  simp [List.lookup, hnil]

/-! ## Coercion to valid UTF-8 and concatenation -/

/-- Bytes that follow a rune do not change how it decodes, provided the first of them is
below `0x80` (so that it cannot complete a truncated sequence). -/
theorem decodeRune_append (x : Nat) (a b : Bytes) (hb : ∀ h ∈ b.head?, h < 0x80) :
    decodeRune (x :: (a ++ b)) = decodeRune (x :: a) := by
  rcases b with _ | ⟨h, b⟩
  · simp
  have hh : h < 0x80 := hb h (by simp)
  by_cases h0 : x < 0x80
  · simp [decodeRune, h0]
  by_cases h1 : x < 0xC2 ∨ 0xF4 < x
  · simp [decodeRune, h0, h1]
  have hlo : h < (if x = 0xE0 then 0xA0 else if x = 0xF0 then 0x90 else 0x80) := by
    split_ifs <;> omega
  rcases a with _ | ⟨s1, a⟩
  · simp only [List.nil_append, decodeRune, h0, h1, if_false, hlo, true_or, if_true,
      List.length_nil]
    split_ifs <;> rfl
  by_cases hs1 : s1 < (if x = 0xE0 then 0xA0 else if x = 0xF0 then 0x90 else 0x80)
      ∨ (if x = 0xED then 0x9F else if x = 0xF4 then 0x8F else 0xBF) < s1
  · simp only [List.cons_append, decodeRune, h0, h1, if_false, hs1, if_true]
    split_ifs <;> rfl
  by_cases h2 : x < 0xE0
  · have hl1 : ¬ ((s1 :: (a ++ h :: b)).length + 1 < 2) := by simp
    have hl2 : ¬ ((s1 :: a).length + 1 < 2) := by simp
    simp only [List.cons_append, decodeRune, h0, h1, if_false, hs1, h2, if_true, hl1, hl2,
      Nat.le_refl]
  have hc : h < 0x80 ∨ 0xBF < h := Or.inl hh
  rcases a with _ | ⟨s2, a⟩
  · have hl2 : ([s1] : Bytes).length + 1 < (if x < 0xF0 then 3 else 4) := by
      split_ifs <;> simp
    have hn2 : ¬ ((if x < 0xF0 then 3 else 4) ≤ 2) := by split_ifs <;> omega
    simp only [List.cons_append, List.nil_append, decodeRune, h0, h1, if_false, hs1, h2,
      hl2, if_true, hn2, hc]
    split_ifs <;> rfl
  by_cases hs2 : s2 < 0x80 ∨ 0xBF < s2
  · have hn2 : ¬ ((if x < 0xF0 then 3 else 4) ≤ 2) := by split_ifs <;> omega
    simp only [List.cons_append, decodeRune, h0, h1, if_false, hs1, h2, hn2, hs2, if_true]
    split_ifs <;> rfl
  by_cases h3 : x < 0xF0
  · have hl1 : ¬ ((s1 :: s2 :: (a ++ h :: b)).length + 1 < 3) := by simp
    have hl2 : ¬ ((s1 :: s2 :: a).length + 1 < 3) := by simp
    simp only [List.cons_append, decodeRune, h0, h1, if_false, hs1, h2, h3, hs2, if_true,
      hl1, hl2, Nat.le_refl, show ¬ (3 ≤ 2) by omega]
  rcases a with _ | ⟨s3, a⟩
  · have hl2 : ([s1, s2] : Bytes).length + 1 < 4 := by simp
    simp only [List.cons_append, List.nil_append, decodeRune, h0, h1, if_false, hs1, h2, h3,
      hs2, hl2, if_true, hc, show ¬ (4 ≤ 2) by omega, show ¬ (4 ≤ 3) by omega]
    split_ifs <;> rfl
  · have hl1 : ¬ ((s1 :: s2 :: s3 :: (a ++ h :: b)).length + 1 < 4) := by simp
    have hl2 : ¬ ((s1 :: s2 :: s3 :: a).length + 1 < 4) := by simp
    simp only [List.cons_append, decodeRune, h0, h1, if_false, hs1, h2, h3, hs2, hl1, hl2,
      show ¬ (4 ≤ 2) by omega, show ¬ (4 ≤ 3) by omega]

theorem decodeRune_width_le (x : Nat) (a : Bytes) :
    (decodeRune (x :: a)).2 ≤ (x :: a).length := by
  rcases decodeRune_cases x a with h | h | ⟨s1, r, hr, _, _, _, _, h⟩
    | ⟨s1, s2, r, hr, _, _, _, _, _, _, _, _, h⟩
    | ⟨s1, s2, s3, r, hr, _, _, _, _, _, _, _, _, _, _, h⟩
  · rw [h.2]; simp
  · rw [h.2]; simp
  all_goals subst hr; rw [h]; simp

/-- Fuel beyond the length of the string changes nothing. -/
theorem toValidUTF8From_succ (f : Nat) : ∀ s : Bytes, s.length ≤ f →
    toValidUTF8From (f + 1) s = toValidUTF8From f s := by
  induction f with
  | zero =>
    intro s hs
    have : s = [] := List.eq_nil_of_length_eq_zero (by omega)
    subst this
    simp [toValidUTF8From]
  | succ f ih =>
    intro s hs
    rcases s with _ | ⟨b, rest⟩
    · simp [toValidUTF8From]
    · have hw := decodeRune_width_pos b rest
      have hrest : rest.length ≤ f := by simp at hs; omega
      have hdrop : ((b :: rest).drop (decodeRune (b :: rest)).2).length ≤ f := by
        simp only [List.length_drop, List.length_cons] at hs ⊢
        omega
      simp only [toValidUTF8From]
      rw [ih rest hrest, ih _ hdrop]

theorem toValidUTF8From_fuel (s : Bytes) : ∀ f, s.length ≤ f →
    toValidUTF8From f s = toValidUTF8 s := by
  intro f hf
  induction f with
  | zero =>
    have : s = [] := List.eq_nil_of_length_eq_zero (by omega)
    subst this
    rfl
  | succ f ih =>
    by_cases h : s.length ≤ f
    · rw [toValidUTF8From_succ f s h, ih h]
    · have : s.length = f + 1 := by omega
      rw [toValidUTF8, this]

/-- One step of the coercion. -/
theorem toValidUTF8_cons (b : Nat) (rest : Bytes) :
    toValidUTF8 (b :: rest)
      = if (decodeRune (b :: rest)).1 = RuneError ∧ (decodeRune (b :: rest)).2 = 1 then
          [0xEF, 0xBF, 0xBD] ++ toValidUTF8 rest
        else (b :: rest).take (decodeRune (b :: rest)).2
          ++ toValidUTF8 ((b :: rest).drop (decodeRune (b :: rest)).2) := by
  have hw := decodeRune_width_pos b rest
  simp only [toValidUTF8, List.length_cons, toValidUTF8From]
  rw [toValidUTF8From_fuel rest _ (by omega), toValidUTF8From_fuel _ rest.length (by
    simp only [List.length_drop, List.length_cons]; omega)]
  rfl

/-- The coercion of a concatenation whose second part starts below `0x80`. -/
theorem toValidUTF8_append (n : Nat) : ∀ (a b : Bytes), a.length ≤ n →
    (∀ h ∈ b.head?, h < 0x80) → toValidUTF8 (a ++ b) = toValidUTF8 a ++ toValidUTF8 b := by
  induction n with
  | zero =>
    intro a b ha _
    have : a = [] := List.eq_nil_of_length_eq_zero (by omega)
    subst this
    rfl
  | succ n ih =>
    intro a b ha hb
    rcases a with _ | ⟨x, a⟩
    · rfl
    have hw := decodeRune_width_pos x a
    have hle := decodeRune_width_le x a
    have hd := decodeRune_append x a b hb
    rw [List.cons_append, toValidUTF8_cons, toValidUTF8_cons x a, hd]
    split_ifs
    · rw [ih a b (by simp at ha; omega) hb]
      simp
    · have ht : List.take (decodeRune (x :: a)).2 (x :: (a ++ b))
          = List.take (decodeRune (x :: a)).2 (x :: a) := by
        rw [← List.cons_append, List.take_append_of_le_length hle]
      have hdr : List.drop (decodeRune (x :: a)).2 (x :: (a ++ b))
          = List.drop (decodeRune (x :: a)).2 (x :: a) ++ b := by
        rw [← List.cons_append, List.drop_append_of_le_length hle]
      rw [ht, hdr, ih _ b (by
        simp only [List.length_drop, List.length_cons] at ha ⊢
        omega) hb]
      simp

theorem toValidUTF8_ascii (b : Nat) (hb : b < 0x80) (s : Bytes) :
    toValidUTF8 (b :: s) = b :: toValidUTF8 s := by
  have hd : decodeRune (b :: s) = (b, 1) := by simp [decodeRune, hb]
  have hne : ¬ b = RuneError := by unfold RuneError; omega
  rw [toValidUTF8_cons, hd]
  simp [hne]

theorem toValidUTF8_bullet (s : Bytes) :
    toValidUTF8 (0xE2 :: 0x80 :: 0xA2 :: s) = 0xE2 :: 0x80 :: 0xA2 :: toValidUTF8 s := by
  have hd : decodeRune (0xE2 :: 0x80 :: 0xA2 :: s) = (0x2022, 3) := by
    have hlen : ¬ (s.length + 1 + 1 + 1 < 3) := by omega
    simp [decodeRune, hlen]
    rfl
  rw [toValidUTF8_cons, hd]
  simp [RuneError]

/-- What a decoder reads as the footer text: author and version coerced to valid UTF-8
around the literal. -/
theorem toValidUTF8_footerText (version : Bytes) (entry : Entry) :
    toValidUTF8 (footerText version entry)
      = toValidUTF8 entry.Author ++ goString " • Miniflux/" ++ toValidUTF8 version := by
  have h4 : goString " • Miniflux/"
      = [0x20, 0xE2, 0x80, 0xA2, 0x20, 77, 105, 110, 105, 102, 108, 117, 120, 47] := by decide
  rw [footerText_eq, List.append_assoc, toValidUTF8_append entry.Author.length _ _ (le_refl _)
    (by rw [h4]; simp)]
  have hlit : toValidUTF8 (goString " • Miniflux/" ++ version)
      = goString " • Miniflux/" ++ toValidUTF8 version := by
    rw [h4]
    simp only [List.cons_append, List.nil_append]
    rw [toValidUTF8_ascii _ (by omega), toValidUTF8_bullet, toValidUTF8_ascii _ (by omega),
      toValidUTF8_ascii _ (by omega), toValidUTF8_ascii _ (by omega),
      toValidUTF8_ascii _ (by omega), toValidUTF8_ascii _ (by omega),
      toValidUTF8_ascii _ (by omega), toValidUTF8_ascii _ (by omega),
      toValidUTF8_ascii _ (by omega), toValidUTF8_ascii _ (by omega),
      toValidUTF8_ascii _ (by omega)]
  rw [hlit, List.append_assoc]

/-- The coercion never shortens a string, and it lengthens every string that has an
invalid byte: such a byte becomes three. -/
theorem toValidUTF8From_length (f : Nat) : ∀ s : Bytes, s.length ≤ f →
    s.length ≤ (toValidUTF8From f s).length
    ∧ (validFrom f s = false → s.length < (toValidUTF8From f s).length) := by
  induction f with
  | zero =>
    intro s hs
    have : s = [] := List.eq_nil_of_length_eq_zero (by omega)
    subst this
    simp [toValidUTF8From, validFrom]
  | succ f ih =>
    intro s hs
    rcases s with _ | ⟨b, rest⟩
    · simp [toValidUTF8From, validFrom]
    have hw := decodeRune_width_pos b rest
    have hle := decodeRune_width_le b rest
    have hrest : rest.length ≤ f := by simp at hs; omega
    have hdrop : ((b :: rest).drop (decodeRune (b :: rest)).2).length ≤ f := by
      simp only [List.length_drop, List.length_cons] at hs ⊢
      omega
    simp only [toValidUTF8From, validFrom]
    split_ifs with herr
    · have := (ih rest hrest).1
      simp only [List.length_append, List.length_cons, List.length_nil]
      exact ⟨by omega, fun _ => by omega⟩
    · obtain ⟨h1, h2⟩ := ih _ hdrop
      simp only [List.length_append, List.length_take, List.length_drop,
        List.length_cons] at h1 h2 hle ⊢
      refine ⟨by omega, fun hv => ?_⟩
      have := h2 hv
      omega

/-- A string is its own coercion exactly when it is valid UTF-8. -/
theorem toValidUTF8_eq_self_iff (s : Bytes) : toValidUTF8 s = s ↔ validUTF8 s = true := by
  constructor
  · intro h
    by_contra hv
    have hf : validFrom s.length s = false := by
      simpa [validUTF8] using hv
    have := (toValidUTF8From_length s.length s (le_refl _)).2 hf
    have hlen : (toValidUTF8 s).length = s.length := by rw [h]
    unfold toValidUTF8 at hlen
    omega
  · exact toValidUTF8_of_valid s

/-- C5 (as amended). For every feed and entry, decoding the serialised body gives as
`embeds[0].description` the feed title coerced to valid UTF-8 and as `embeds[0].title` the
entry title coerced to valid UTF-8, where the coercion reads the string rune by rune,
puts the three bytes `EF BF BD` (U+FFFD) in place of each byte that does not start a
valid UTF-8 sequence and copies every other rune. So the decoded description is the feed
title byte for byte exactly when the feed title is valid UTF-8, and the decoded title is
the entry title byte for byte exactly when the entry title is valid UTF-8, each title on
its own and whatever characters it contains. -/
theorem C5_titles_round_trip (version : Bytes) (feed : Feed) (entry : Entry) :
    (∃ body embed, jsonMarshal (messageFor version feed entry) = .ok body
      ∧ firstEmbed body = some embed
      ∧ embed.stringField (goString "description") = toValidUTF8 feed.Title
      ∧ embed.stringField (goString "title") = toValidUTF8 entry.Title
      ∧ (embed.stringField (goString "description") = feed.Title
          ↔ validUTF8 feed.Title = true)
      ∧ (embed.stringField (goString "title") = entry.Title
          ↔ validUTF8 entry.Title = true))
    ∧ toValidUTF8 [] = []
    ∧ ∀ (b : Nat) (rest : Bytes),
        toValidUTF8 (b :: rest)
          = if (decodeRune (b :: rest)).1 = RuneError ∧ (decodeRune (b :: rest)).2 = 1 then
              [0xEF, 0xBF, 0xBD] ++ toValidUTF8 rest
            else (b :: rest).take (decodeRune (b :: rest)).2
              ++ toValidUTF8 ((b :: rest).drop (decodeRune (b :: rest)).2) := by
  obtain ⟨embed, h1, h2, h3⟩ := firstEmbed_fields version feed entry
  refine ⟨⟨_, embed, rfl, h1, h2, h3, ?_, ?_⟩, rfl, toValidUTF8_cons⟩
  · rw [h2]; exact toValidUTF8_eq_self_iff feed.Title
  · rw [h3]; exact toValidUTF8_eq_self_iff entry.Title

set_option maxRecDepth 100000 in
/-- C10. Whatever the feed and the entry, the decoded body has one embed, with the member
`color` of value 5793266 and a member `footer` whose `text` is a string that is not empty
and ends in ` • Miniflux/` and the version, as a decoder reads the version (which is the
version itself when it is valid UTF-8); the footer text that is serialised ends in
` • Miniflux/<version>`. With all four strings empty the body is the JSON object given,
and its footer text starts with a space; the version appears in it as `json.Marshal`
escapes it. -/
theorem C10_embed_never_empty (version : Bytes) (feed : Feed) (entry : Entry) :
    (∃ body embedMembers footerMembers text,
      jsonMarshal (messageFor version feed entry) = .ok body
      ∧ jsonDecode body = some (.obj [(goString "embeds", .arr [.obj embedMembers])])
      ∧ List.lookup (goString "color") embedMembers = some (.num 5793266)
      ∧ List.lookup (goString "footer") embedMembers = some (.obj footerMembers)
      ∧ List.lookup (goString "text") footerMembers = some (.str text)
      ∧ text ≠ []
      ∧ (goString " • Miniflux/" ++ toValidUTF8 version) <:+ text)
    ∧ (validUTF8 version = true → toValidUTF8 version = version)
    ∧ footerText version entry ≠ []
    ∧ (goString " • Miniflux/" ++ version) <:+ footerText version entry
    ∧ jsonMarshal (messageFor version { Title := [], IconURL := [] }
          { Title := [], URL := [], Author := [] })
        = .ok (goString "\x7b\"embeds\":[\x7b\"color\":5793266,\"footer\":\x7b\"text\":\" • Miniflux/"
            ++ appendStringBody version.length version ++ goString "\"\x7d\x7d]\x7d")
    ∧ (footerText version { Title := [], URL := [], Author := [] }).head? = some 0x20 := by
  have hne : footerText version entry ≠ [] := by
    have := footerText_ne_nil version entry
    intro h; rw [h] at this; cases this
  refine ⟨?_, toValidUTF8_of_valid version, hne, ?_, ?_, ?_⟩
  · refine ⟨_, _, (goString "text", .str (toValidUTF8 (footerText version entry)))
        :: omitempty (goString "icon_url") feed.IconURL.isEmpty
            (.str (toValidUTF8 feed.IconURL)),
      toValidUTF8 (footerText version entry),
      rfl, decode_message version feed entry, ?_, ?_, ?_, toValidUTF8_ne_nil _ hne, ?_⟩
    · rcases feed with ⟨ft, fi⟩
      rcases entry with ⟨et, eu, ea⟩
      simp only [omitempty, gk_embeds, gk_title, gk_url, gk_description, gk_color, gk_footer,
        gk_text, gk_icon_url]
      rcases ft with _ | ⟨ft0, ft⟩ <;> rcases et with _ | ⟨et0, et⟩
        <;> rcases eu with _ | ⟨eu0, eu⟩ <;>
      simp [List.lookup]
    · rcases feed with ⟨ft, fi⟩
      rcases entry with ⟨et, eu, ea⟩
      simp only [omitempty, gk_embeds, gk_title, gk_url, gk_description, gk_color, gk_footer,
        gk_text, gk_icon_url]
      rcases ft with _ | ⟨ft0, ft⟩ <;> rcases et with _ | ⟨et0, et⟩
        <;> rcases eu with _ | ⟨eu0, eu⟩ <;>
      simp [List.lookup]
    · simp [List.lookup]
    · rw [toValidUTF8_footerText, List.append_assoc]
      exact List.suffix_append _ _
  · rw [footerText_eq, List.append_assoc]
    exact List.suffix_append _ _
  · have hf := appendString_footerText version { Title := [], URL := [], Author := [] }
      (by simp)
    simp only [jsonMarshal, render_message, hf, List.isEmpty_nil, if_true]
    have w6 : goString " • Miniflux/"
        = [0x20, 0xE2, 0x80, 0xA2, 0x20, 77, 105, 110, 105, 102, 108, 117, 120, 47] := by decide
    have c1 : goString "\x7b\"embeds\":[\x7b" = [123, 34, 101, 109, 98, 101, 100, 115, 34, 58, 91, 123] := by
      decide
    have c6 : goString "\"color\":5793266,\"footer\":\x7b\"text\":"
        = [34, 99, 111, 108, 111, 114, 34, 58, 53, 55, 57, 51, 50, 54, 54, 44, 34, 102, 111, 111,
            116, 101, 114, 34, 58, 123, 34, 116, 101, 120, 116, 34, 58] := by decide
    have c8 : goString "\x7d\x7d]\x7d" = [125, 125, 93, 125] := by decide
    have r1 : goString "\x7b\"embeds\":[\x7b\"color\":5793266,\"footer\":\x7b\"text\":\" • Miniflux/"
        = [123, 34, 101, 109, 98, 101, 100, 115, 34, 58, 91, 123]
          ++ [34, 99, 111, 108, 111, 114, 34, 58, 53, 55, 57, 51, 50, 54, 54, 44, 34, 102, 111,
               111, 116, 101, 114, 34, 58, 123, 34, 116, 101, 120, 116, 34, 58]
          ++ [34]
          ++ [0x20, 0xE2, 0x80, 0xA2, 0x20, 77, 105, 110, 105, 102, 108, 117, 120, 47] := by
      decide
    have r2 : goString "\"\x7d\x7d]\x7d" = [34] ++ [125, 125, 93, 125] := by decide
    rw [r1, r2]
    simp only [w6, c1, c6, c8]
    simp only [List.append_assoc, List.cons_append, List.nil_append]
  · rw [footerText_eq]
    rfl

/-! ## Concrete runs -/

/-- C1, counterexample: the webhook URL is the single control byte `0x7F`, which
`http.NewRequest` does not accept, and every exchange would be answered with 200; with
one entry the call issues no request at all and returns an error. -/
theorem C1_counterexample :
    (∀ pos req, (constEnv [] (.response 200)).httpDo pos req = .response 200)
    ∧ requests (SendDiscordMsg (constEnv [] (.response 200)) (NewClient [0x7F])
        { Title := [], IconURL := [] } [{ Title := [], URL := [], Author := [] }]).trace = []
    ∧ (SendDiscordMsg (constEnv [] (.response 200)) (NewClient [0x7F])
        { Title := [], IconURL := [] } [{ Title := [], URL := [], Author := [] }]).err.isSome
        = true := by
  refine ⟨fun _ _ => rfl, by decide, by decide⟩

set_option maxRecDepth 100000 in
/-- C5, counterexample: the feed title is the single byte `0xFF`, which is not valid
UTF-8; decoding the serialised body gives the three bytes `EF BF BD` as description, not
the byte `FF`. -/
theorem C5_counterexample :
    validUTF8 [0xFF] = false
    ∧ (firstEmbed (render (messageFor [] { Title := [0xFF], IconURL := [] }
        { Title := [], URL := [], Author := [] }).toJSON)).map
          (JSON.stringField (goString "description")) = some [0xEF, 0xBF, 0xBD]
    ∧ (firstEmbed (render (messageFor [] { Title := [0xFF], IconURL := [] }
        { Title := [], URL := [], Author := [] }).toJSON)).map
          (JSON.stringField (goString "description")) ≠ some [0xFF] := by
  refine ⟨by decide, by decide, by decide⟩

set_option maxRecDepth 100000 in
/-- C6, the code at two entries that are both answered with 200: when the request for
the second entry is issued, the response body of the first entry is still open. -/
theorem C6_body_open_at_next_request :
    openAtRequests (SendDiscordMsg (constEnv [] (.response 200))
        (NewClient (goString "https://discord.test/hook")) { Title := [], IconURL := [] }
        [{ Title := [], URL := [], Author := [] },
         { Title := [], URL := [], Author := [] }]).trace []
      = [(0, []), (1, [0])]
    ∧ (SendDiscordMsg (constEnv [] (.response 200))
        (NewClient (goString "https://discord.test/hook")) { Title := [], IconURL := [] }
        [{ Title := [], URL := [], Author := [] },
         { Title := [], URL := [], Author := [] }]).err = none := by
  refine ⟨by decide, by decide⟩

set_option maxRecDepth 100000 in
/-- C1 at a client with the URL `https://discord.test/hook`, one entry and every
exchange answered with 200: one request, and `nil`. -/
theorem C1_witness :
    (constEnv [] (.response 200)).urlParseError
        (NewClient (goString "https://discord.test/hook")).webhookURL = none
    ∧ (requests (SendDiscordMsg (constEnv [] (.response 200))
        (NewClient (goString "https://discord.test/hook")) { Title := [], IconURL := [] }
        [{ Title := [], URL := [], Author := [] }]).trace).length = 1
    ∧ (SendDiscordMsg (constEnv [] (.response 200))
        (NewClient (goString "https://discord.test/hook")) { Title := [], IconURL := [] }
        [{ Title := [], URL := [], Author := [] }]).err = none :=
  ⟨by decide,
   ((C1_requests_until_first_failure (constEnv [] (.response 200))
      (NewClient (goString "https://discord.test/hook")) { Title := [], IconURL := [] }
      [{ Title := [], URL := [], Author := [] }] (by decide)).1 (fun _ _ _ => rfl)).2.1,
   ((C1_requests_until_first_failure (constEnv [] (.response 200))
      (NewClient (goString "https://discord.test/hook")) { Title := [], IconURL := [] }
      [{ Title := [], URL := [], Author := [] }] (by decide)).1 (fun _ _ _ => rfl)).2.2⟩

set_option maxRecDepth 100000 in
/-- C2 at the boundary: with every exchange answered with 400 the call returns the
error for status 400 after the first entry. -/
theorem C2_witness :
    (0, requestFor [] (NewClient (goString "https://discord.test/hook"))
          { Title := [], IconURL := [] } { Title := [], URL := [], Author := [] })
      ∈ requests (SendDiscordMsg (constEnv [] (.response 400))
          (NewClient (goString "https://discord.test/hook")) { Title := [], IconURL := [] }
          [{ Title := [], URL := [], Author := [] },
           { Title := [], URL := [], Author := [] }]).trace
    ∧ (SendDiscordMsg (constEnv [] (.response 400))
          (NewClient (goString "https://discord.test/hook")) { Title := [], IconURL := [] }
          [{ Title := [], URL := [], Author := [] },
           { Title := [], URL := [], Author := [] }]).err
        = some (goString
            "discord: unable to send a notification: url=https://discord.test/hook status=400") :=
  ⟨by decide,
   ((C2_status_decides (constEnv [] (.response 400))
      (NewClient (goString "https://discord.test/hook")) { Title := [], IconURL := [] }
      [{ Title := [], URL := [], Author := [] }, { Title := [], URL := [], Author := [] }]
      0 (requestFor [] (NewClient (goString "https://discord.test/hook"))
          { Title := [], IconURL := [] } { Title := [], URL := [], Author := [] })
      400 (by decide) rfl).1 (by decide)).1.trans (by decide)⟩

set_option maxRecDepth 100000 in
/-- C3 at a run for the version `2.2.0` that is answered with 204: the request for the
entry of the scenario is in the trace, and its body is the JSON object of the scenario. -/
theorem C3_witness :
    (0, requestFor (goString "2.2.0") (NewClient (goString "https://discord.test/hook"))
          { Title := goString "Tech News", IconURL := goString "https://x/icon.png" }
          { Title := goString "Item A", URL := goString "https://x/a",
            Author := goString "alice" })
      ∈ requests (SendDiscordMsg (constEnv (goString "2.2.0") (.response 204))
          (NewClient (goString "https://discord.test/hook"))
          { Title := goString "Tech News", IconURL := goString "https://x/icon.png" }
          [{ Title := goString "Item A", URL := goString "https://x/a",
             Author := goString "alice" }]).trace
    ∧ (requestFor (goString "2.2.0") (NewClient (goString "https://discord.test/hook"))
          { Title := goString "Tech News", IconURL := goString "https://x/icon.png" }
          { Title := goString "Item A", URL := goString "https://x/a",
            Author := goString "alice" }).Body
      = goString ("\x7b\"embeds\":[\x7b\"title\":\"Item A\",\"url\":\"https://x/a\","
          ++ "\"description\":\"Tech News\",\"color\":5793266,"
          ++ "\"footer\":\x7b\"text\":\"alice • Miniflux/2.2.0\","
          ++ "\"icon_url\":\"https://x/icon.png\"\x7d\x7d]\x7d") :=
  ⟨by decide,
   ((C3_message_of_entry (constEnv (goString "2.2.0") (.response 204))
      (NewClient (goString "https://discord.test/hook")) { Title := [], IconURL := [] }
      { Title := [], URL := [], Author := [] }).2.2.2.2.2 0
      (requestFor (goString "2.2.0") (NewClient (goString "https://discord.test/hook"))
          { Title := goString "Tech News", IconURL := goString "https://x/icon.png" }
          { Title := goString "Item A", URL := goString "https://x/a",
            Author := goString "alice" })
      (by decide)).2.trans (by decide)⟩

set_option maxRecDepth 100000 in
/-- C5 at a feed title with characters that `json.Marshal` escapes and with a multi-byte
rune, which is read back byte for byte, next to an entry title with the invalid byte
`0xFF`, which is not. -/
theorem C5_witness :
    validUTF8 (goString "Tech <News> & \"more\" \\ \n •") = true
    ∧ validUTF8 (goString "Item " ++ [0xFF]) = false
    ∧ ∃ body embed,
        jsonMarshal (messageFor (goString "2.2.0")
            { Title := goString "Tech <News> & \"more\" \\ \n •", IconURL := [] }
            { Title := goString "Item " ++ [0xFF], URL := [], Author := [] }) = .ok body
        ∧ firstEmbed body = some embed
        ∧ embed.stringField (goString "description")
            = goString "Tech <News> & \"more\" \\ \n •"
        ∧ embed.stringField (goString "title") = goString "Item " ++ [0xEF, 0xBF, 0xBD]
        ∧ embed.stringField (goString "title") ≠ goString "Item " ++ [0xFF] :=
  ⟨by decide, by decide,
   match (C5_titles_round_trip (goString "2.2.0")
     { Title := goString "Tech <News> & \"more\" \\ \n •", IconURL := [] }
     { Title := goString "Item " ++ [0xFF], URL := [], Author := [] }).1 with
   | ⟨body, embed, hb, he, _, ht, hd, hti⟩ =>
     ⟨body, embed, hb, he, hd.mpr (by decide), ht.trans (by decide),
      fun h => absurd (hti.mp h) (by decide)⟩⟩

set_option maxRecDepth 100000 in
/-- C8 at a run with one entry that is answered with 204, for the version `2.2.0`: the
request is in the trace, and it is a POST to the URL of the client with the two headers. -/
theorem C8_witness :
    (0, requestFor (goString "2.2.0") (NewClient (goString "https://discord.test/hook"))
          { Title := [], IconURL := [] } { Title := [], URL := [], Author := [] })
      ∈ requests (SendDiscordMsg (constEnv (goString "2.2.0") (.response 204))
          (NewClient (goString "https://discord.test/hook")) { Title := [], IconURL := [] }
          [{ Title := [], URL := [], Author := [] }]).trace
    ∧ (requestFor (goString "2.2.0") (NewClient (goString "https://discord.test/hook"))
          { Title := [], IconURL := [] } { Title := [], URL := [], Author := [] }).Header.Get
          (goString "User-Agent") = some (goString "Miniflux/2.2.0") :=
  ⟨by decide,
   (((C8_client_and_request_frame (constEnv (goString "2.2.0") (.response 204))
      (goString "https://discord.test/hook") { Title := [], IconURL := [] }
      [{ Title := [], URL := [], Author := [] }]).2.2 0
      (requestFor (goString "2.2.0") (NewClient (goString "https://discord.test/hook"))
          { Title := [], IconURL := [] } { Title := [], URL := [], Author := [] })
      (by decide)).2.2.2.1).trans (by decide)⟩

set_option maxRecDepth 100000 in
/-- C9 at two runs: the first has one entry and is answered with 500; the second, on
another client, has another entry in front and is answered with 204. -/
theorem C9_witness :
    (0, requestFor [] (NewClient (goString "https://a.test/1")) { Title := [], IconURL := [] }
          { Title := goString "x", URL := [], Author := [] })
      ∈ requests (SendDiscordMsg (constEnv [] (.response 500))
          (NewClient (goString "https://a.test/1")) { Title := [], IconURL := [] }
          [{ Title := goString "x", URL := [], Author := [] }]).trace
    ∧ (1, requestFor [] (NewClient (goString "https://b.test/2")) { Title := [], IconURL := [] }
          { Title := goString "x", URL := [], Author := [] })
      ∈ requests (SendDiscordMsg (constEnv [] (.response 204))
          (NewClient (goString "https://b.test/2")) { Title := [], IconURL := [] }
          [{ Title := goString "y", URL := [], Author := [] },
           { Title := goString "x", URL := [], Author := [] }]).trace
    ∧ (requestFor [] (NewClient (goString "https://a.test/1")) { Title := [], IconURL := [] }
          { Title := goString "x", URL := [], Author := [] }).Body
      = (requestFor [] (NewClient (goString "https://b.test/2")) { Title := [], IconURL := [] }
          { Title := goString "x", URL := [], Author := [] }).Body :=
  ⟨by decide, by decide,
   (C9_body_independent (constEnv [] (.response 500)) (constEnv [] (.response 204))
      (NewClient (goString "https://a.test/1")) (NewClient (goString "https://b.test/2"))
      { Title := [], IconURL := [] }
      [{ Title := goString "x", URL := [], Author := [] }]
      [{ Title := goString "y", URL := [], Author := [] },
       { Title := goString "x", URL := [], Author := [] }]
      0 1 _ _ { Title := goString "x", URL := [], Author := [] } rfl (by decide) (by decide)
      (by decide) (by decide)).1⟩

end Discord
